import Mathlib

/-!
Shallow embedding of the lonelypsp / httppubsubprotocol wire-protocol core:
the framed stateful message codec (header framing and the per-message
parsers and serializers that the claims reference) and the HMAC
authentication layer (token format, canonical to-sign encoding, token
extraction, replay store).

Python bytes are embedded as `List Nat` with values below 256; Python `str`
as `List Char`; fallible operations (exceptions such as `ValueError`,
`OverflowError`, `AssertionError`, `KeyError`) as `Option` or
`Except ParseErr`.
-/

namespace Lonelypsp


/-- `k` big-endian base-256 digits of `v` (most significant first); helper for
`natToBytesBE`. -/
def natToBytesBEAux : Nat → Nat → List Nat
  | 0, _ => []
  | k + 1, v => (v / 256 ^ k % 256) :: natToBytesBEAux k v

/-- Models Python `int.to_bytes(k, "big")` on a nonnegative value: `OverflowError`
(value does not fit in `k` bytes) is embedded as `none`. -/
def natToBytesBE (v k : Nat) : Option (List Nat) :=
  if v < 256 ^ k then some (natToBytesBEAux k v) else none

/-- Models Python `int.to_bytes(k, "big")` on an `int` that may be negative:
negative values raise `OverflowError` (unsigned conversion), embedded as `none`. -/
def intToBytesBE (v : Int) (k : Nat) : Option (List Nat) :=
  if 0 ≤ v then natToBytesBE v.toNat k else none

/-- Models Python `int.from_bytes(b, "big")` (unsigned). -/
def natFromBytesBE (l : List Nat) : Nat :=
  l.foldl (fun acc b => acc * 256 + b) 0

/-- Models Python `int.from_bytes(b, "big", signed=True)` (two's complement). -/
def intFromBytesSignedBE (l : List Nat) : Int :=
  let u := natFromBytesBE l
  if 2 * u < 256 ^ l.length then (u : Int) else (u : Int) - 256 ^ l.length

/-- ASCII codes of a (header-name) string. -/
def asciiBytes (s : String) : List Nat := s.toList.map Char.toNat

/-- Reads exactly `n` bytes from the remaining input, returning the bytes read and
the rest; fewer than `n` bytes available models the stream ending mid-field. -/
def readExact (n : Nat) (input : List Nat) : Option (List Nat × List Nat) :=
  if n ≤ input.length then some (input.take n, input.drop n) else none

/-- Reads a 2-byte big-endian unsigned integer. -/
def readU16 (input : List Nat) : Option (Nat × List Nat) :=
  match input with
  | b0 :: b1 :: rest => some (b0 * 256 + b1, rest)
  | _ => none

/-- The codec failure taxonomy: the stream ended mid-field, or an invariant was
violated on read (wrong width, duplicate known header, missing known header). -/
inductive ParseErr
  | truncated
  | malformed
deriving DecidableEq

/-- Decidable equality of embedded parse results, so that concrete runs of the
parsers can be checked by `decide`. -/
instance {e a : Type} [DecidableEq e] [DecidableEq a] : DecidableEq (Except e a)
  | .error x, .error y =>
    if h : x = y then .isTrue (by rw [h]) else .isFalse (by intro hc; cases hc; exact h rfl)
  | .error _, .ok _ => .isFalse (by intro hc; cases hc)
  | .ok _, .error _ => .isFalse (by intro hc; cases hc)
  | .ok x, .ok y =>
    if h : x = y then .isTrue (by rw [h]) else .isFalse (by intro hc; cases hc; exact h rfl)

/-- Parsed headers: an insertion-ordered association list from header name
(ASCII bytes) to value bytes. -/
abbrev Headers := List (List Nat × List Nat)

/-- First value bound to `name`, if any (models Python `dict` lookup on the
header mapping). -/
def headerLookup (hs : Headers) (name : List Nat) : Option (List Nat) :=
  match hs with
  | [] => none
  | (n, v) :: rest => if n = name then some v else headerLookup rest name

/-- Modelled from the spec: minimal-header parsing (`parser_helpers.py` is not among
the sources). For each expected header name in order, read a 2-byte big-endian
length and then that many bytes and bind them to the expected name; the stream
ending before all expected positions are complete is `Truncated`. -/
def parseMinimalHeaders (expected : List (List Nat)) (input : List Nat) :
    Except ParseErr (Headers × List Nat) :=
  match expected with
  | [] => .ok ([], input)
  | name :: rest =>
    match readU16 input with
    | none => .error .truncated
    | some (len, input1) =>
      match readExact len input1 with
      | none => .error .truncated
      | some (v, input2) =>
        match parseMinimalHeaders rest input2 with
        | .error e => .error e
        | .ok (hs, leftover) => .ok ((name, v) :: hs, leftover)

/-- Modelled from the spec: expanded-header parsing loop. Reads `count` pairs of
length-prefixed name and value; unknown names are retained; a duplicate of a
known (expected) name is a malformed header. -/
def parseExpandedHeadersAux (count : Nat) (known : List (List Nat)) (acc : Headers)
    (input : List Nat) : Except ParseErr (Headers × List Nat) :=
  match count with
  | 0 => .ok (acc, input)
  | c + 1 =>
    match readU16 input with
    | none => .error .truncated
    | some (nameLen, i1) =>
      match readExact nameLen i1 with
      | none => .error .truncated
      | some (name, i2) =>
        match readU16 i2 with
        | none => .error .truncated
        | some (valLen, i3) =>
          match readExact valLen i3 with
          | none => .error .truncated
          | some (v, i4) =>
            if name ∈ known ∧ (headerLookup acc name).isSome then .error .malformed
            else parseExpandedHeadersAux c known (acc ++ [(name, v)]) i4

/-- Modelled from the spec: `parse_simple_headers` selects minimal- or
expanded-header parsing from the `MINIMAL_HEADERS` flag, the least significant
bit of the 2-byte message flags; expanded mode first reads a 2-byte header
count. Returns the header mapping and the unread remainder (payload). -/
def parse_simple_headers (flags : Nat) (input : List Nat) (expected : List (List Nat)) :
    Except ParseErr (Headers × List Nat) :=
  if flags % 2 = 1 then parseMinimalHeaders expected input
  else
    match readU16 input with
    | none => .error .truncated
    | some (count, i1) => parseExpandedHeadersAux count expected [] i1

/-- `S2B_Configure` payload (the `type` discriminator field of the Python
dataclass is the fixed enum value `CONFIGURE` and is left implicit). -/
structure S2B_Configure where
  subscriber_nonce : List Nat
  enable_zstd : Bool
  enable_training : Bool
  initial_dict : Nat
deriving DecidableEq

/-- Header names of `S2B_Configure` as in `ws/messages/configure.py`:
`_headers = (x-subscriber-nonce, x-enable-zstd, x-enable-training)`. -/
def s2bConfigureHeaderNames : List (List Nat) :=
  [asciiBytes "x-subscriber-nonce", asciiBytes "x-enable-zstd",
   asciiBytes "x-enable-training"]

/-- Embeds `S2B_ConfigureParser.parse`. A `KeyError` on a missing known header and
the `ValueError`s raised on width violations are embedded as `malformed`;
a missing `x-initial-dict` defaults to `b"0"`, i.e. the single byte 48. -/
def s2b_configure_parse (flags : Nat) (input : List Nat) : Except ParseErr S2B_Configure :=
  match parse_simple_headers flags input s2bConfigureHeaderNames with
  | .error e => .error e
  | .ok (headers, _) =>
    match headerLookup headers (asciiBytes "x-subscriber-nonce") with
    | none => .error .malformed
    | some subscriber_nonce =>
      if subscriber_nonce.length ≠ 32 then .error .malformed
      else
        match headerLookup headers (asciiBytes "x-enable-zstd") with
        | none => .error .malformed
        | some zstdBytes =>
          match headerLookup headers (asciiBytes "x-enable-training") with
          | none => .error .malformed
          | some trainingBytes =>
            let initialDictBytes :=
              (headerLookup headers (asciiBytes "x-initial-dict")).getD [48]
            if initialDictBytes.length > 2 then .error .malformed
            else
              .ok { subscriber_nonce := subscriber_nonce,
                    enable_zstd := decide (zstdBytes = [1]),
                    enable_training := decide (trainingBytes = [1]),
                    initial_dict := natFromBytesBE initialDictBytes }

/-- `B2S_ConfirmConfigure` payload (`type` discriminator implicit). -/
structure B2S_ConfirmConfigure where
  broadcaster_nonce : List Nat
deriving DecidableEq

/-- Header names of `B2S_ConfirmConfigure`. -/
def b2sConfirmConfigureHeaderNames : List (List Nat) := [asciiBytes "x-broadcaster-nonce"]

/-- Embeds `B2S_ConfirmConfigureParser.parse`: the broadcaster nonce must be
exactly 32 bytes. -/
def b2s_confirm_configure_parse (flags : Nat) (input : List Nat) :
    Except ParseErr B2S_ConfirmConfigure :=
  match parse_simple_headers flags input b2sConfirmConfigureHeaderNames with
  | .error e => .error e
  | .ok (headers, _) =>
    match headerLookup headers (asciiBytes "x-broadcaster-nonce") with
    | none => .error .malformed
    | some broadcaster_nonce =>
      if broadcaster_nonce.length ≠ 32 then .error .malformed
      else .ok { broadcaster_nonce := broadcaster_nonce }

/-- `B2S_ContinueNotify` payload (`type` discriminator implicit). -/
structure B2S_ContinueNotify where
  identifier : List Nat
  part_id : Nat
deriving DecidableEq

/-- Header names of `B2S_ContinueNotify`. -/
def b2sContinueNotifyHeaderNames : List (List Nat) :=
  [asciiBytes "x-identifier", asciiBytes "x-part-id"]

/-- Embeds `B2S_ContinueNotifyParser.parse`: identifier at most 64 bytes, part id
at most 8 bytes, part id decoded big-endian unsigned. -/
def b2s_continue_notify_parse (flags : Nat) (input : List Nat) :
    Except ParseErr B2S_ContinueNotify :=
  match parse_simple_headers flags input b2sContinueNotifyHeaderNames with
  | .error e => .error e
  | .ok (headers, _) =>
    match headerLookup headers (asciiBytes "x-identifier") with
    | none => .error .malformed
    | some identifier =>
      if identifier.length > 64 then .error .malformed
      else
        match headerLookup headers (asciiBytes "x-part-id") with
        | none => .error .malformed
        | some partIdBytes =>
          if partIdBytes.length > 8 then .error .malformed
          else .ok { identifier := identifier, part_id := natFromBytesBE partIdBytes }

/-- `B2S_EnableZstdPreset` payload (`type` discriminator implicit). -/
structure B2S_EnableZstdPreset where
  identifier : Nat
  compression_level : Int
  min_size : Nat
  max_size : Nat
deriving DecidableEq

/-- Header names of `B2S_EnableZstdPreset`. -/
def b2sEnableZstdPresetHeaderNames : List (List Nat) :=
  [asciiBytes "x-identifier", asciiBytes "x-compression-level",
   asciiBytes "x-min-size", asciiBytes "x-max-size"]

/-- Embeds `B2S_EnableZstdPresetParser.parse`: identifier at most 8 bytes,
compression level at most 2 bytes (decoded big-endian signed), min size at
most 4 bytes, max size at most 8 bytes. -/
def b2s_enable_zstd_preset_parse (flags : Nat) (input : List Nat) :
    Except ParseErr B2S_EnableZstdPreset :=
  match parse_simple_headers flags input b2sEnableZstdPresetHeaderNames with
  | .error e => .error e
  | .ok (headers, _) =>
    match headerLookup headers (asciiBytes "x-identifier") with
    | none => .error .malformed
    | some identifierBytes =>
      if identifierBytes.length > 8 then .error .malformed
      else
        match headerLookup headers (asciiBytes "x-compression-level") with
        | none => .error .malformed
        | some compressionLevelBytes =>
          if compressionLevelBytes.length > 2 then .error .malformed
          else
            match headerLookup headers (asciiBytes "x-min-size") with
            | none => .error .malformed
            | some minSizeBytes =>
              if minSizeBytes.length > 4 then .error .malformed
              else
                match headerLookup headers (asciiBytes "x-max-size") with
                | none => .error .malformed
                | some maxSizeBytes =>
                  if maxSizeBytes.length > 8 then .error .malformed
                  else
                    .ok { identifier := natFromBytesBE identifierBytes,
                          compression_level := intFromBytesSignedBE compressionLevelBytes,
                          min_size := natFromBytesBE minSizeBytes,
                          max_size := natFromBytesBE maxSizeBytes }

/-- Serializes minimal-mode header values: each value is written as a 2-byte
big-endian length followed by the value bytes (`serialize_minimal_headers`). -/
def serializeValues (values : List (List Nat)) : Option (List Nat) :=
  match values with
  | [] => some []
  | v :: rest => do
    let lenB ← natToBytesBE v.length 2
    let restB ← serializeValues rest
    return lenB ++ v ++ restB

/-- Serializes expanded-mode name and value pairs, mirroring the `zip` in
`serialize_expanded_headers` (which silently truncates to the shorter list). -/
def serializePairs : List (List Nat) → List (List Nat) → Option (List Nat)
  | [], _ => some []
  | _, [] => some []
  | n :: ns, v :: vs => do
    let nl ← natToBytesBE n.length 2
    let vl ← natToBytesBE v.length 2
    let rest ← serializePairs ns vs
    return nl ++ n ++ vl ++ v ++ rest

/-- Embeds `serialize_simple_message`: writes the 2-byte flags (1 when minimal
headers, else 0), the 2-byte type, the headers in the selected mode, and the
payload. The opening `assert len(header_names) == len(header_values)` raises
`AssertionError` on mismatch, embedded as `none`; in expanded mode the header
count written is `len(header_names)`. -/
def serialize_simple_message (type : Nat) (header_names header_values : List (List Nat))
    (payload : List Nat) (minimal_headers : Bool) : Option (List Nat) :=
  if header_names.length ≠ header_values.length then none
  else do
    let flagsB ← natToBytesBE (if minimal_headers then 1 else 0) 2
    let typeB ← natToBytesBE type 2
    let headersB ←
      if minimal_headers then serializeValues header_values
      else do
        let countB ← natToBytesBE header_names.length 2
        let pairsB ← serializePairs header_names header_values
        return countB ++ pairsB
    return flagsB ++ typeB ++ headersB ++ payload

/-- Modelled from the spec (`ws/constants.py` is not among the sources): the
wire value of the subscriber-to-broadcaster `CONFIGURE` message type. The
spec's literal end-to-end scenario fixes its 2-byte encoding as `00 01`. -/
def CONFIGURE : Nat := 1

/-- Modelled from the spec: the wire value of the broadcaster-to-subscriber
`CONFIRM_CONFIGURE` message type (first broadcaster-to-subscriber type, same
enumeration discipline as `CONFIGURE`). -/
def CONFIRM_CONFIGURE : Nat := 1

/-- Embeds `serialize_s2b_configure`: three header names are passed with FOUR
header values (subscriber nonce, zstd flag byte, training flag byte, and the
2-byte big-endian `initial_dict`); the value tuple, including
`initial_dict.to_bytes(2, "big")`, is evaluated before the call. -/
def serialize_s2b_configure (c : S2B_Configure) (minimal_headers : Bool) :
    Option (List Nat) := do
  let dictB ← natToBytesBE c.initial_dict 2
  serialize_simple_message CONFIGURE s2bConfigureHeaderNames
    [c.subscriber_nonce,
     if c.enable_zstd then [1] else [0],
     if c.enable_training then [1] else [0],
     dictB]
    [] minimal_headers

/-- Embeds `serialize_b2s_confirm_configure`: one header name with the single
broadcaster-nonce value. -/
def serialize_b2s_confirm_configure (c : B2S_ConfirmConfigure) (minimal_headers : Bool) :
    Option (List Nat) :=
  serialize_simple_message CONFIRM_CONFIGURE b2sConfirmConfigureHeaderNames
    [c.broadcaster_nonce] [] minimal_headers

/-- 2-byte big-endian encoding of a length known to fit, used to build concrete
test streams for the parsers. -/
def u16be (n : Nat) : List Nat := [n / 256 % 256, n % 256]

/-- Builds the byte stream of a minimal-headers message body from raw header
values: each value length-prefixed with 2 bytes. -/
def minimalStream (values : List (List Nat)) : List Nat :=
  (values.map (fun v => u16be v.length ++ v)).flatten

/-- Builds the byte stream of an expanded-headers message body: a 2-byte header
count, then each header as length-prefixed name and length-prefixed value. -/
def expandedStream (headers : List (List Nat × List Nat)) : List Nat :=
  u16be headers.length ++
    (headers.map (fun h => u16be h.1.length ++ h.1 ++ u16be h.2.length ++ h.2)).flatten

/-- The name-and-value portion of an expanded-headers stream (without the
2-byte count prefix). -/
def expandedBody (headers : List (List Nat × List Nat)) : List Nat :=
  (headers.map (fun h => u16be h.1.length ++ h.1 ++ u16be h.2.length ++ h.2)).flatten

/-- The byte string that claim C7 expects `serialize_s2b_configure` to produce in
minimal-headers mode for the literal end-to-end scenario. -/
def c7ExpectedBytes : List Nat :=
  [0, 1, 0, 1, 0, 32] ++ List.replicate 32 1 ++ [0, 1, 1, 0, 1, 0, 0, 1, 0]


/-- Decimal digit characters of `n`, most significant first (empty for 0). -/
def natDigitsChars (n : Nat) : List Char :=
  ((Nat.digits 10 n).map (fun d => Char.ofNat (48 + d))).reverse

/-- Decimal string of a natural number, as Python `str` renders it. -/
def natToChars (n : Nat) : List Char :=
  if n = 0 then ['0'] else natDigitsChars n

/-- Models Python `str` formatting of an `int` inside the token f-string. -/
def intToChars (i : Int) : List Char :=
  if i < 0 then '-' :: natToChars (-i).toNat else natToChars i.toNat

/-- The code points that CPython `int(str)` strips as surrounding whitespace
(checked against CPython 3.11: the whitespace set accepted around an integer
literal; note 0x1C-0x1F are `str.isspace` but rejected by `int`). -/
def pyIntSpace : List Nat :=
  [0x9, 0xA, 0xB, 0xC, 0xD, 0x20, 0x85, 0xA0, 0x1680, 0x2000, 0x2001, 0x2002, 0x2003,
   0x2004, 0x2005, 0x2006, 0x2007, 0x2008, 0x2009, 0x200A, 0x2028, 0x2029, 0x202F,
   0x205F, 0x3000]

/-- Whether `int(str)` strips this character at either end of the literal. -/
def pyIsSpace (c : Char) : Bool := pyIntSpace.contains c.toNat

/-- Start code points of the runs of ten consecutive Unicode decimal digits
(the characters with a `unicodedata.decimal` value, exactly the digits CPython
`int(str)` accepts; table generated from CPython 3.11 / Unicode 14). -/
def pyDigitRunStarts : List Nat :=
  [0x30, 0x660, 0x6F0, 0x7C0, 0x966, 0x9E6, 0xA66, 0xAE6, 0xB66, 0xBE6, 0xC66, 0xCE6,
   0xD66, 0xDE6, 0xE50, 0xED0, 0xF20, 0x1040, 0x1090, 0x17E0, 0x1810, 0x1946, 0x19D0,
   0x1A80, 0x1A90, 0x1B50, 0x1BB0, 0x1C40, 0x1C50, 0xA620, 0xA8D0, 0xA900, 0xA9D0,
   0xA9F0, 0xAA50, 0xABF0, 0xFF10, 0x104A0, 0x10D30, 0x11066, 0x110F0, 0x11136,
   0x111D0, 0x112F0, 0x11450, 0x114D0, 0x11650, 0x116C0, 0x11730, 0x118E0, 0x11950,
   0x11C50, 0x11D50, 0x11DA0, 0x16A60, 0x16AC0, 0x16B50, 0x1D7CE, 0x1D7D8, 0x1D7E2,
   0x1D7EC, 0x1D7F6, 0x1E140, 0x1E2F0, 0x1E950, 0x1FBF0]

/-- The decimal value of a character, over every Unicode decimal digit (each run
covers the ten code points from its start), as `int(str)` interprets digits. -/
def pyDigitVal (c : Char) : Option Nat :=
  (pyDigitRunStarts.find? (fun lo => decide (lo ≤ c.toNat ∧ c.toNat ≤ lo + 9))).map
    (fun lo => c.toNat - lo)

/-- Continuation of the digit grammar of `int(str)` after the first digit: a
single underscore may separate digits (`1_0`), but an underscore may not end
the literal, be doubled, or precede a non-digit. -/
def parseDigitsUAux : List Char → Option (List Nat)
  | [] => some []
  | c :: rest =>
    if c = '_' then
      match rest with
      | [] => none
      | c2 :: rest2 => do
        let d ← pyDigitVal c2
        let ds ← parseDigitsUAux rest2
        return d :: ds
    else do
      let d ← pyDigitVal c
      let ds ← parseDigitsUAux rest
      return d :: ds

/-- The digit part of the grammar of `int(str)`: at least one decimal digit,
with single underscores allowed between digits; digits most significant
first. -/
def parseDigitsU : List Char → Option (List Nat)
  | [] => none
  | c :: rest => do
    let d ← pyDigitVal c
    let ds ← parseDigitsUAux rest
    return d :: ds

/-- The whitespace stripping `int(str)` performs at both ends of the literal. -/
def pyStrip (cs : List Char) : List Char :=
  ((cs.dropWhile pyIsSpace).reverse.dropWhile pyIsSpace).reverse

/-- Models Python `int(str)` on the timestamp segment: strip the surrounding
whitespace the conversion accepts, then an optional single ASCII sign followed
by at least one Unicode decimal digit, with single underscores allowed between
digits. Failure is `ValueError`, i.e. `none`. -/
def parseIntPy (cs : List Char) : Option Int :=
  match pyStrip cs with
  | [] => none
  | c :: rest =>
    if c = '-' then
      (parseDigitsU rest).map (fun ds => -(Nat.ofDigits 10 ds.reverse : Int))
    else if c = '+' then
      (parseDigitsU rest).map (fun ds => (Nat.ofDigits 10 ds.reverse : Int))
    else (parseDigitsU (c :: rest)).map (fun ds => (Nat.ofDigits 10 ds.reverse : Int))

/-- Models Python `int(float)`: truncation of the real-valued clock toward
zero. -/
def pyTrunc (q : ℚ) : Int := if 0 ≤ q then ⌊q⌋ else ⌈q⌉

/-- Models `s.find(c)` followed by the slices `s[:i]` and `s[i+1:]`: the segments
before and after the first occurrence of `c`, or `none` when `find` returns -1. -/
def splitAtFirst (c : Char) : List Char → Option (List Char × List Char)
  | [] => none
  | x :: rest =>
    if x = c then some ([], rest)
    else (splitAtFirst c rest).map (fun p => (x :: p.1, p.2))

/-- UTF-8 encoding of one character (models Python `str.encode("utf-8")`). -/
def utf8EncodeChar (c : Char) : List Nat :=
  let n := c.toNat
  if n < 128 then [n]
  else if n < 2048 then [192 + n / 64, 128 + n % 64]
  else if n < 65536 then [224 + n / 4096, 128 + n / 64 % 64, 128 + n % 64]
  else [240 + n / 262144, 128 + n / 4096 % 64, 128 + n / 64 % 64, 128 + n % 64]

/-- UTF-8 encoding of a string. -/
def utf8Encode (cs : List Char) : List Nat := (cs.map utf8EncodeChar).flatten

/-- The character of one base-64 sextet (standard alphabet). -/
def b64Chr (n : Nat) : Char :=
  if n < 26 then Char.ofNat (65 + n)
  else if n < 52 then Char.ofNat (97 + (n - 26))
  else if n < 62 then Char.ofNat (48 + (n - 52))
  else if n = 62 then '+' else '/'

/-- The sextet of a character in the standard base-64 alphabet, or `none`. -/
def b64Index (c : Char) : Option Nat :=
  if 65 ≤ c.toNat ∧ c.toNat ≤ 90 then some (c.toNat - 65)
  else if 97 ≤ c.toNat ∧ c.toNat ≤ 122 then some (c.toNat - 97 + 26)
  else if 48 ≤ c.toNat ∧ c.toNat ≤ 57 then some (c.toNat - 48 + 52)
  else if c = '+' then some 62
  else if c = '/' then some 63
  else none

/-- Models Python `base64.b64encode` (standard alphabet, padded output). -/
def b64encode : List Nat → List Char
  | [] => []
  | [a] => [b64Chr (a / 4), b64Chr (a % 4 * 16), '=', '=']
  | [a, b] => [b64Chr (a / 4), b64Chr (a % 4 * 16 + b / 16), b64Chr (b % 16 * 4), '=']
  | a :: b :: c :: rest =>
    b64Chr (a / 4) :: b64Chr (a % 4 * 16 + b / 16) :: b64Chr (b % 16 * 4 + c / 64) ::
      b64Chr (c % 64) :: b64encode rest

/-- Decoder state of CPython's non-strict `binascii.a2b_base64` loop: emitted
bytes, position within the current 4-character group, pending bits, count of
padding characters seen in the current group, and whether decoding stopped at
completed padding (any later characters are ignored). -/
structure B64State where
  out : List Nat
  quadPos : Nat
  leftchar : Nat
  pads : Nat
  finished : Bool

/-- One character of the non-strict base-64 decoding loop: padding is counted
only at group positions 2 and 3 and completes the group (stopping the loop)
once position plus padding reaches 4; characters outside the alphabet are
discarded; an alphabet character accumulates bits and emits a byte at
positions 1, 2 and 3 (with the C code's truncation to one byte). -/
def b64Step (s : B64State) (c : Char) : B64State :=
  if s.finished then s
  else if c = '=' then
    if 2 ≤ s.quadPos then
      if 4 ≤ s.quadPos + (s.pads + 1) then
        { s with pads := s.pads + 1, finished := true }
      else { s with pads := s.pads + 1 }
    else s
  else
    match b64Index c with
    | none => s
    | some v =>
      if s.quadPos = 0 then { s with quadPos := 1, leftchar := v, pads := 0 }
      else if s.quadPos = 1 then
        { s with out := s.out ++ [(s.leftchar * 4 + v / 16) % 256], quadPos := 2,
                 leftchar := v % 16, pads := 0 }
      else if s.quadPos = 2 then
        { s with out := s.out ++ [(s.leftchar * 16 + v / 4) % 256], quadPos := 3,
                 leftchar := v % 4, pads := 0 }
      else
        { s with out := s.out ++ [(s.leftchar * 64 + v) % 256], quadPos := 0,
                 leftchar := 0, pads := 0 }

/-- Models Python `base64.b64decode(s)` on a `str` with default (non-strict)
validation: the argument must be pure ASCII (else `ValueError`), characters
outside the alphabet are discarded, and decoding fails (`binascii.Error`, a
`ValueError`) when the data characters end mid-group without completed
padding. -/
def b64decodeChars (cs : List Char) : Option (List Nat) :=
  if cs.all (fun c => c.toNat < 128) then
    let fin := cs.foldl b64Step ⟨[], 0, 0, 0, false⟩
    if fin.finished then some fin.out
    else if fin.quadPos = 0 then some fin.out
    else none
  else none

/-- Result of `get_token`: the authorization header was missing, definitely not
acceptable, or carried a (not yet verified) timestamp, nonce and digest. -/
inductive TokenInfo
  | unauthorized
  | forbidden
  | found (timestamp : Int) (nonce : List Char) (hmac : List Nat)
deriving DecidableEq

/-- The ASCII authorization scheme marker, including its trailing space. -/
def xhmacHeader : List Char := "X-HMAC ".toList

/-- Embeds `get_token` from `auth/helpers/hmac_auth_config.py`: checks the
scheme marker, splits the remainder at the first and second colons, parses the
timestamp, checks clock drift against the token lifetime, base-64 decodes the
digest (with two extra padding characters appended), and checks that the digest
is exactly 64 bytes. The code's `if not startswith` guard is written here with
the positive condition first. -/
def get_token (authorization : Option (List Char)) (now token_lifetime : ℚ) : TokenInfo :=
  match authorization with
  | none => .unauthorized
  | some auth =>
    if xhmacHeader.isPrefixOf auth then
      match splitAtFirst ':' (auth.drop 7) with
      | none => .forbidden
      | some (tsStr, rest2) =>
        match parseIntPy tsStr with
        | none => .forbidden
        | some ts =>
          if token_lifetime < |now - (ts : ℚ)| then .forbidden
          else
            match splitAtFirst ':' rest2 with
            | none => .forbidden
            | some (nonce, codeStr) =>
              match b64decodeChars (codeStr ++ ['=', '=']) with
              | none => .forbidden
              | some code =>
                if code.length ≠ 64 then .forbidden
                else .found ts nonce code
    else .forbidden

/-- Embeds `sign`: format the digest of `to_sign` under `secret` as
`X-HMAC ts:nonce:b64digest`. The HMAC-SHA-512 primitive is a parameter
`hmacFn`; the clock is real-valued and `int(now)` truncates it toward zero. -/
def sign (hmacFn : List Nat → List Nat → List Nat) (secret to_sign : List Nat)
    (nonce : List Char) (now : ℚ) : List Char :=
  xhmacHeader ++ intToChars (pyTrunc now) ++
    ':' :: (nonce ++ ':' :: b64encode (hmacFn secret to_sign))

/-- Outcome of the replay-store insertion. -/
inductive MarkResult
  | ok
  | conflict
deriving DecidableEq

/-- Outcome of an `is_<op>_allowed` check. -/
inductive AuthResult
  | ok
  | unauthorized
  | forbidden
  | unavailable
deriving DecidableEq

/-- Models the `IncomingHmacAuthDBConfig.mark_code_used` contract as satisfied by
the sqlite store (conditional insert keyed on the code, `conflict` exactly when
the code is already recorded): the store is the set of recorded codes. -/
def mark_code_used (store : List (List Nat)) (code : List Nat) :
    MarkResult × List (List Nat) :=
  if code ∈ store then (.conflict, store) else (.ok, code :: store)

/-- Embeds `check_code`: recompute the expected digest of `to_sign` under
`secret`, compare (constant-time in the source, equality here), then record the
presented code in the replay store; a replay conflict is forbidden. -/
def check_code (hmacFn : List Nat → List Nat → List Nat) (secret to_sign code : List Nat)
    (store : List (List Nat)) : AuthResult × List (List Nat) :=
  if code = hmacFn secret to_sign then
    match mark_code_used store code with
    | (.conflict, st) => (.forbidden, st)
    | (.ok, st) => (.ok, st)
  else (.forbidden, store)

/-- The nine canonical-message tags of `AuthMessageType` (an `IntEnum` whose
`auto()` values start at 1). -/
inductive AuthMessageType
  | SUBSCRIBE_EXACT
  | SUBSCRIBE_GLOB
  | NOTIFY
  | WEBSOCKET_CONFIGURE
  | CHECK_SUBSCRIPTIONS
  | SET_SUBSCRIPTIONS
  | RECEIVE
  | MISSED
  | WEBSOCKET_CONFIRM_CONFIGURE
deriving DecidableEq

/-- Integer value of each `AuthMessageType` member (`auto()` from 1). -/
def authMessageTag : AuthMessageType → Nat
  | .SUBSCRIBE_EXACT => 1
  | .SUBSCRIBE_GLOB => 2
  | .NOTIFY => 3
  | .WEBSOCKET_CONFIGURE => 4
  | .CHECK_SUBSCRIPTIONS => 5
  | .SET_SUBSCRIPTIONS => 6
  | .RECEIVE => 7
  | .MISSED => 8
  | .WEBSOCKET_CONFIRM_CONFIGURE => 9

/-- Embeds `ToBroadcasterHmacAuth._prepare_subscribe_exact`: tag 1, 8-byte
big-endian timestamp, 1-byte-length-prefixed nonce, then 2-byte-length-prefixed
url, recovery (empty when absent) and exact topic. `to_bytes` overflow is
`none`. -/
def prepare_subscribe_exact (url : List Char) (recovery : Option (List Char))
    (exact : List Nat) (timestamp : Int) (nonce : List Char) : Option (List Nat) := do
  let encoded_url := utf8Encode url
  let encoded_recovery := match recovery with | none => [] | some r => utf8Encode r
  let encoded_timestamp ← intToBytesBE timestamp 8
  let encoded_nonce := utf8Encode nonce
  let tagB ← natToBytesBE (authMessageTag .SUBSCRIBE_EXACT) 1
  let nonceLen ← natToBytesBE encoded_nonce.length 1
  let urlLen ← natToBytesBE encoded_url.length 2
  let recoveryLen ← natToBytesBE encoded_recovery.length 2
  let exactLen ← natToBytesBE exact.length 2
  return tagB ++ encoded_timestamp ++ nonceLen ++ encoded_nonce ++ urlLen ++ encoded_url ++
    recoveryLen ++ encoded_recovery ++ exactLen ++ exact

/-- Embeds `ToBroadcasterHmacAuth._prepare_subscribe_glob` (tag 2). -/
def prepare_subscribe_glob (url : List Char) (recovery : Option (List Char))
    (glob : List Char) (timestamp : Int) (nonce : List Char) : Option (List Nat) := do
  let encoded_url := utf8Encode url
  let encoded_recovery := match recovery with | none => [] | some r => utf8Encode r
  let encoded_timestamp ← intToBytesBE timestamp 8
  let encoded_glob := utf8Encode glob
  let encoded_nonce := utf8Encode nonce
  let tagB ← natToBytesBE (authMessageTag .SUBSCRIBE_GLOB) 1
  let nonceLen ← natToBytesBE encoded_nonce.length 1
  let urlLen ← natToBytesBE encoded_url.length 2
  let recoveryLen ← natToBytesBE encoded_recovery.length 2
  let globLen ← natToBytesBE encoded_glob.length 2
  return tagB ++ encoded_timestamp ++ nonceLen ++ encoded_nonce ++ urlLen ++ encoded_url ++
    recoveryLen ++ encoded_recovery ++ globLen ++ encoded_glob

/-- Embeds `ToBroadcasterHmacAuth._prepare_notify` (tag 3): length-prefixed
topic then the raw 64-byte sha-512. -/
def prepare_notify (topic message_sha512 : List Nat) (timestamp : Int)
    (nonce : List Char) : Option (List Nat) := do
  let encoded_timestamp ← intToBytesBE timestamp 8
  let encoded_nonce := utf8Encode nonce
  let tagB ← natToBytesBE (authMessageTag .NOTIFY) 1
  let nonceLen ← natToBytesBE encoded_nonce.length 1
  let topicLen ← natToBytesBE topic.length 2
  return tagB ++ encoded_timestamp ++ nonceLen ++ encoded_nonce ++ topicLen ++ topic ++
    message_sha512

/-- Embeds `ToBroadcasterHmacAuth._prepare_stateful_configure` (tag 4):
1-byte-length-prefixed subscriber nonce, two flag bytes, 2-byte initial dict. -/
def prepare_stateful_configure (subscriber_nonce : List Nat)
    (enable_zstd enable_training : Bool) (initial_dict : Nat) (timestamp : Int)
    (nonce : List Char) : Option (List Nat) := do
  let encoded_timestamp ← intToBytesBE timestamp 8
  let encoded_nonce := utf8Encode nonce
  let tagB ← natToBytesBE (authMessageTag .WEBSOCKET_CONFIGURE) 1
  let nonceLen ← natToBytesBE encoded_nonce.length 1
  let subNonceLen ← natToBytesBE subscriber_nonce.length 1
  let dictB ← natToBytesBE initial_dict 2
  return tagB ++ encoded_timestamp ++ nonceLen ++ encoded_nonce ++ subNonceLen ++
    subscriber_nonce ++ (if enable_zstd then [1] else [0]) ++
    (if enable_training then [1] else [0]) ++ dictB

/-- Embeds `ToBroadcasterHmacAuth._prepare_check_subscriptions` (tag 5). -/
def prepare_check_subscriptions (url : List Char) (timestamp : Int)
    (nonce : List Char) : Option (List Nat) := do
  let encoded_url := utf8Encode url
  let encoded_timestamp ← intToBytesBE timestamp 8
  let encoded_nonce := utf8Encode nonce
  let tagB ← natToBytesBE (authMessageTag .CHECK_SUBSCRIPTIONS) 1
  let nonceLen ← natToBytesBE encoded_nonce.length 1
  let urlLen ← natToBytesBE encoded_url.length 2
  return tagB ++ encoded_timestamp ++ nonceLen ++ encoded_nonce ++ urlLen ++ encoded_url

/-- A strong etag as in `stateless/make_strong_etag.py` (not among the sources):
a 1-byte format discriminator and the etag bytes. -/
structure StrongEtag where
  format : Nat
  etag : List Nat
deriving DecidableEq

/-- Embeds `ToBroadcasterHmacAuth._prepare_set_subscriptions` (tag 6):
length-prefixed url then the etag format byte followed by the etag bytes. -/
def prepare_set_subscriptions (url : List Char) (strong_etag : StrongEtag)
    (timestamp : Int) (nonce : List Char) : Option (List Nat) := do
  let encoded_url := utf8Encode url
  let formatB ← natToBytesBE strong_etag.format 1
  let encoded_etag := formatB ++ strong_etag.etag
  let encoded_timestamp ← intToBytesBE timestamp 8
  let encoded_nonce := utf8Encode nonce
  let tagB ← natToBytesBE (authMessageTag .SET_SUBSCRIPTIONS) 1
  let nonceLen ← natToBytesBE encoded_nonce.length 1
  let urlLen ← natToBytesBE encoded_url.length 2
  return tagB ++ encoded_timestamp ++ nonceLen ++ encoded_nonce ++ urlLen ++ encoded_url ++
    encoded_etag

/-- Embeds `ToSubscriberHmacAuth._prepare_receive` (tag 7): length-prefixed url
and topic then the raw 64-byte sha-512 (asserted 64 bytes in the source). -/
def prepare_receive (url : List Char) (topic message_sha512 : List Nat)
    (timestamp : Int) (nonce : List Char) : Option (List Nat) := do
  if message_sha512.length ≠ 64 then none
  else do
    let encoded_url := utf8Encode url
    let encoded_timestamp ← intToBytesBE timestamp 8
    let encoded_nonce := utf8Encode nonce
    let tagB ← natToBytesBE (authMessageTag .RECEIVE) 1
    let nonceLen ← natToBytesBE encoded_nonce.length 1
    let urlLen ← natToBytesBE encoded_url.length 2
    let topicLen ← natToBytesBE topic.length 2
    return tagB ++ encoded_timestamp ++ nonceLen ++ encoded_nonce ++ urlLen ++ encoded_url ++
      topicLen ++ topic ++ message_sha512

/-- Embeds `ToSubscriberHmacAuth._prepare_missed` (tag 8): length-prefixed
recovery url and topic. -/
def prepare_missed (recovery : List Char) (topic : List Nat) (timestamp : Int)
    (nonce : List Char) : Option (List Nat) := do
  let encoded_recovery := utf8Encode recovery
  let encoded_timestamp ← intToBytesBE timestamp 8
  let encoded_nonce := utf8Encode nonce
  let tagB ← natToBytesBE (authMessageTag .MISSED) 1
  let nonceLen ← natToBytesBE encoded_nonce.length 1
  let recoveryLen ← natToBytesBE encoded_recovery.length 2
  let topicLen ← natToBytesBE topic.length 2
  return tagB ++ encoded_timestamp ++ nonceLen ++ encoded_nonce ++ recoveryLen ++
    encoded_recovery ++ topicLen ++ topic

/-- Embeds `ToSubscriberHmacAuth._prepare_stateful_confirm_configure` (tag 9):
1-byte-length-prefixed broadcaster nonce. -/
def prepare_stateful_confirm_configure (broadcaster_nonce : List Nat) (timestamp : Int)
    (nonce : List Char) : Option (List Nat) := do
  let encoded_timestamp ← intToBytesBE timestamp 8
  let encoded_nonce := utf8Encode nonce
  let tagB ← natToBytesBE (authMessageTag .WEBSOCKET_CONFIRM_CONFIGURE) 1
  let nonceLen ← natToBytesBE encoded_nonce.length 1
  let bNonceLen ← natToBytesBE broadcaster_nonce.length 1
  return tagB ++ encoded_timestamp ++ nonceLen ++ encoded_nonce ++ bNonceLen ++
    broadcaster_nonce

/-- Parameter tuple of one authorized operation, one constructor per
`AuthMessageType` member, carrying exactly the fields its `_prepare_*`
builder consumes. -/
inductive AuthParams
  | subscribeExact (url : List Char) (recovery : Option (List Char)) (exact : List Nat)
      (timestamp : Int) (nonce : List Char)
  | subscribeGlob (url : List Char) (recovery : Option (List Char)) (glob : List Char)
      (timestamp : Int) (nonce : List Char)
  | notify (topic message_sha512 : List Nat) (timestamp : Int) (nonce : List Char)
  | websocketConfigure (subscriber_nonce : List Nat) (enable_zstd enable_training : Bool)
      (initial_dict : Nat) (timestamp : Int) (nonce : List Char)
  | checkSubscriptions (url : List Char) (timestamp : Int) (nonce : List Char)
  | setSubscriptions (url : List Char) (strong_etag : StrongEtag) (timestamp : Int)
      (nonce : List Char)
  | receive (url : List Char) (topic message_sha512 : List Nat) (timestamp : Int)
      (nonce : List Char)
  | missed (recovery : List Char) (topic : List Nat) (timestamp : Int) (nonce : List Char)
  | websocketConfirmConfigure (broadcaster_nonce : List Nat) (timestamp : Int)
      (nonce : List Char)

/-- The operation of a parameter tuple. -/
def authParamsOp : AuthParams → AuthMessageType
  | .subscribeExact _ _ _ _ _ => .SUBSCRIBE_EXACT
  | .subscribeGlob _ _ _ _ _ => .SUBSCRIBE_GLOB
  | .notify _ _ _ _ => .NOTIFY
  | .websocketConfigure _ _ _ _ _ _ => .WEBSOCKET_CONFIGURE
  | .checkSubscriptions _ _ _ => .CHECK_SUBSCRIPTIONS
  | .setSubscriptions _ _ _ _ => .SET_SUBSCRIPTIONS
  | .receive _ _ _ _ _ => .RECEIVE
  | .missed _ _ _ _ => .MISSED
  | .websocketConfirmConfigure _ _ _ => .WEBSOCKET_CONFIRM_CONFIGURE

/-- The canonical to-sign bytes of an operation with its parameters: dispatches
to the operation's `_prepare_*` builder. -/
def prepareToSign : AuthParams → Option (List Nat)
  | .subscribeExact url recovery exact timestamp nonce =>
    prepare_subscribe_exact url recovery exact timestamp nonce
  | .subscribeGlob url recovery glob timestamp nonce =>
    prepare_subscribe_glob url recovery glob timestamp nonce
  | .notify topic sha timestamp nonce => prepare_notify topic sha timestamp nonce
  | .websocketConfigure subNonce z tr dict timestamp nonce =>
    prepare_stateful_configure subNonce z tr dict timestamp nonce
  | .checkSubscriptions url timestamp nonce =>
    prepare_check_subscriptions url timestamp nonce
  | .setSubscriptions url etag timestamp nonce =>
    prepare_set_subscriptions url etag timestamp nonce
  | .receive url topic sha timestamp nonce => prepare_receive url topic sha timestamp nonce
  | .missed recovery topic timestamp nonce => prepare_missed recovery topic timestamp nonce
  | .websocketConfirmConfigure bNonce timestamp nonce =>
    prepare_stateful_confirm_configure bNonce timestamp nonce

/-- Embeds `ToBroadcasterHmacAuth.authorize_subscribe_exact`: build the to-sign
bytes at `int(now)` with a fresh nonce (passed in, since `make_nonce` draws
randomness) and sign them. -/
def authorize_subscribe_exact (hmacFn : List Nat → List Nat → List Nat)
    (secret : List Nat) (url : List Char) (recovery : Option (List Char))
    (exact : List Nat) (now : ℚ) (nonce : List Char) : Option (List Char) :=
  (prepare_subscribe_exact url recovery exact (pyTrunc now) nonce).map
    (fun to_sign => sign hmacFn secret to_sign nonce now)

/-- Embeds `ToBroadcasterHmacAuth.is_subscribe_exact_allowed`: extract the token,
rebuild the canonical bytes from the caller's parameters and the token's
timestamp and nonce, and check the code against the replay store. An exception
escaping `_prepare_subscribe_exact` is `none`. -/
def is_subscribe_exact_allowed (hmacFn : List Nat → List Nat → List Nat)
    (secret : List Nat) (token_lifetime : ℚ) (url : List Char)
    (recovery : Option (List Char)) (exact : List Nat) (now : ℚ)
    (authorization : Option (List Char)) (store : List (List Nat)) :
    Option (AuthResult × List (List Nat)) :=
  match get_token authorization now token_lifetime with
  | .unauthorized => some (.unauthorized, store)
  | .forbidden => some (.forbidden, store)
  | .found ts tokenNonce code =>
    match prepare_subscribe_exact url recovery exact ts tokenNonce with
    | none => none
    | some to_sign => some (check_code hmacFn secret to_sign code store)

/-- Embeds `ToSubscriberHmacAuth.is_stateful_confirm_configure_allowed`. Its body
first evaluates `message.authorization`, but the `B2S_ConfirmConfigure`
dataclass in `stateful/messages/confirm_configure.py` declares only `type` and
`broadcaster_nonce`, so every call raises `AttributeError` before any result is
produced; the raise is embedded as `none`. -/
def is_stateful_confirm_configure_allowed (message : B2S_ConfirmConfigure) (now : ℚ) :
    Option AuthResult :=
  none

/-- One row of the sqlite replay store: the code and its integer expiry. -/
abbrev SqlRows := List (List Nat × Int)

/-- Embeds `IncomingHmacAuthSqliteDBConfig.mark_code_used`: inside one immediate
transaction, insert `(code, ceil(now + token_lifetime))` only when no row with
this code exists; a rowcount of zero is a conflict. -/
def sqlite_mark_code_used (rows : SqlRows) (code : List Nat) (now : ℚ)
    (token_lifetime : Int) : MarkResult × SqlRows :=
  if rows.any (fun r => r.1 = code) then (.conflict, rows)
  else (.ok, rows ++ [(code, ⌈now + (token_lifetime : ℚ)⌉)])

/-- Embeds the delete step of `IncomingHmacAuthSqliteDBConfig._cleanup_codes`:
delete every row whose expiry is strictly below `floor(now)`. -/
def sqlite_cleanup (rows : SqlRows) (now : ℚ) : SqlRows :=
  rows.filter (fun r => decide (⌊now⌋ ≤ r.2))

/-- An event against the sqlite replay store: an insertion attempt by
`mark_code_used` or one delete pass of the background cleanup task, each at a
point in (real, fractional) time. -/
inductive StoreEvent
  | mark (code : List Nat) (time : ℚ)
  | cleanup (time : ℚ)

/-- The time at which a store event runs. -/
def storeEventTime : StoreEvent → ℚ
  | .mark _ t => t
  | .cleanup t => t

/-- The store contents after one event. -/
def runStoreEvent (token_lifetime : Int) (rows : SqlRows) : StoreEvent → SqlRows
  | .mark code t => (sqlite_mark_code_used rows code t token_lifetime).2
  | .cleanup t => sqlite_cleanup rows t

/-- The store contents after a sequence of events. -/
def runStoreEvents (token_lifetime : Int) (rows : SqlRows) (evs : List StoreEvent) :
    SqlRows :=
  evs.foldl (runStoreEvent token_lifetime) rows

/-- The test double for HMAC-SHA-512 used by concrete witnesses: a fixed 64-byte
digest (the roundtrip theorems hold for every digest function, so any concrete
one will do). -/
def c2HmacFn (secret message : List Nat) : List Nat := List.range 64

/-- The canonical to-sign bytes of the witness call to
`authorize_subscribe_exact` (url "u", no recovery, topic "t", timestamp 0,
nonce "n"). -/
def c2ToSign : List Nat :=
  [1, 0, 0, 0, 0, 0, 0, 0, 0, 1, 110, 0, 1, 117, 0, 0, 0, 1, 116]

/-- The witness token: the string `sign` produces for `c2ToSign` under the empty
secret at any clock that truncates to 0 (its layout `X-HMAC 0:n:<b64 digest>`
written out, so that it is a closed, clock-free list of characters). -/
def c2Token : List Char :=
  xhmacHeader ++ intToChars 0 ++ ':' :: (['n'] ++ ':' :: b64encode (List.range 64))

/-- The claim's acceptance condition on an authorization string, stated from the
spec's words (a refinement-style second definition, to be compared with
`get_token`): the string is the scheme marker followed by a timestamp segment,
a nonce segment and a base-64 body separated by the first two colons; the
timestamp parses as an integer within `token_lifetime` of `now`; the body
decodes (with the two appended padding characters) to a digest of exactly 64
bytes. -/
def TokenAccepted (s : List Char) (now token_lifetime : ℚ) (ts : Int)
    (nonce : List Char) (mac : List Nat) : Prop :=
  ∃ tsStr codeStr,
    s = xhmacHeader ++ (tsStr ++ ':' :: (nonce ++ ':' :: codeStr))
    ∧ ':' ∉ tsStr ∧ ':' ∉ nonce
    ∧ parseIntPy tsStr = some ts
    ∧ |now - (ts : ℚ)| ≤ token_lifetime
    ∧ b64decodeChars (codeStr ++ ['=', '=']) = some mac
    ∧ mac.length = 64

theorem readU16_u16be (n : Nat) (rest : List Nat) (h : n ≤ 65535) :
    readU16 (u16be n ++ rest) = some (n, rest) := by
  have hn : n / 256 % 256 * 256 + n % 256 = n := by omega
  simp [u16be, readU16, hn]

theorem readExact_append (v rest : List Nat) :
    readExact v.length (v ++ rest) = some (v, rest) := by
  simp [readExact, List.take_left, List.drop_left]

theorem minimalStream_cons (v : List Nat) (vs : List (List Nat)) :
    minimalStream (v :: vs) = u16be v.length ++ (v ++ minimalStream vs) := by
  simp [minimalStream, List.append_assoc]

theorem parseMinimalHeaders_ok :
    ∀ (names values : List (List Nat)), names.length = values.length →
      (∀ v ∈ values, v.length ≤ 65535) →
      parseMinimalHeaders names (minimalStream values) = .ok (names.zip values, []) := by
  intro names
  induction names with
  | nil =>
    intro values hlen _
    cases values with
    | nil => simp [parseMinimalHeaders, minimalStream]
    | cons v vs => simp at hlen
  | cons name rest ih =>
    intro values hlen hb
    cases values with
    | nil => simp at hlen
    | cons v vs =>
      have hv : v.length ≤ 65535 := hb v (by simp)
      have hvs : ∀ w ∈ vs, w.length ≤ 65535 := fun w hw => hb w (by simp [hw])
      have hlen2 : rest.length = vs.length := by simpa using hlen
      rw [minimalStream_cons]
      simp only [parseMinimalHeaders, readU16_u16be v.length _ hv, readExact_append,
        ih vs hlen2 hvs]
      simp


theorem s2b_configure_parse_minimal (nonce v t : List Nat)
    (hn : nonce.length ≤ 65535) (hv : v.length ≤ 65535) (ht : t.length ≤ 65535) :
    s2b_configure_parse 1 (minimalStream [nonce, v, t]) =
      if nonce.length ≠ 32 then .error .malformed
      else .ok ⟨nonce, decide (v = [1]), decide (t = [1]), 48⟩ := by
  have hok := parseMinimalHeaders_ok s2bConfigureHeaderNames [nonce, v, t] (by rfl)
    (by intro w hw; simp at hw; rcases hw with h | h | h <;> simp [h, hn, hv, ht])
  have hps : parse_simple_headers 1 (minimalStream [nonce, v, t]) s2bConfigureHeaderNames =
      .ok (s2bConfigureHeaderNames.zip [nonce, v, t], []) := by
    rw [parse_simple_headers, if_pos (by norm_num : 1 % 2 = 1), hok]
  have l1 : headerLookup (s2bConfigureHeaderNames.zip [nonce, v, t])
      (asciiBytes "x-subscriber-nonce") = some nonce := rfl
  have l2 : headerLookup (s2bConfigureHeaderNames.zip [nonce, v, t])
      (asciiBytes "x-enable-zstd") = some v := rfl
  have l3 : headerLookup (s2bConfigureHeaderNames.zip [nonce, v, t])
      (asciiBytes "x-enable-training") = some t := rfl
  have l4 : headerLookup (s2bConfigureHeaderNames.zip [nonce, v, t])
      (asciiBytes "x-initial-dict") = none := rfl
  rw [s2b_configure_parse, hps]
  simp only [l1, l2, l3, l4, Option.getD]
  split
  · rfl
  · norm_num [natFromBytesBE]


theorem b2s_confirm_configure_parse_minimal (nonce : List Nat)
    (hn : nonce.length ≤ 65535) :
    b2s_confirm_configure_parse 1 (minimalStream [nonce]) =
      if nonce.length ≠ 32 then .error .malformed else .ok ⟨nonce⟩ := by
  have hok := parseMinimalHeaders_ok b2sConfirmConfigureHeaderNames [nonce] (by rfl)
    (by intro w hw; simp at hw; simp [hw, hn])
  have hps : parse_simple_headers 1 (minimalStream [nonce]) b2sConfirmConfigureHeaderNames =
      .ok (b2sConfirmConfigureHeaderNames.zip [nonce], []) := by
    rw [parse_simple_headers, if_pos (by norm_num : 1 % 2 = 1), hok]
  have l1 : headerLookup (b2sConfirmConfigureHeaderNames.zip [nonce])
      (asciiBytes "x-broadcaster-nonce") = some nonce := rfl
  rw [b2s_confirm_configure_parse, hps]
  simp only [l1]

theorem b2s_continue_notify_parse_minimal (ident pid : List Nat)
    (hi : ident.length ≤ 65535) (hp : pid.length ≤ 65535) :
    b2s_continue_notify_parse 1 (minimalStream [ident, pid]) =
      if ident.length > 64 then .error .malformed
      else if pid.length > 8 then .error .malformed
      else .ok ⟨ident, natFromBytesBE pid⟩ := by
  have hok := parseMinimalHeaders_ok b2sContinueNotifyHeaderNames [ident, pid] (by rfl)
    (by intro w hw; simp at hw; rcases hw with h | h <;> simp [h, hi, hp])
  have hps : parse_simple_headers 1 (minimalStream [ident, pid]) b2sContinueNotifyHeaderNames =
      .ok (b2sContinueNotifyHeaderNames.zip [ident, pid], []) := by
    rw [parse_simple_headers, if_pos (by norm_num : 1 % 2 = 1), hok]
  have l1 : headerLookup (b2sContinueNotifyHeaderNames.zip [ident, pid])
      (asciiBytes "x-identifier") = some ident := rfl
  have l2 : headerLookup (b2sContinueNotifyHeaderNames.zip [ident, pid])
      (asciiBytes "x-part-id") = some pid := rfl
  rw [b2s_continue_notify_parse, hps]
  simp only [l1, l2]

theorem b2s_enable_zstd_preset_parse_minimal (cl : List Nat)
    (hc : cl.length ≤ 65535) :
    b2s_enable_zstd_preset_parse 1 (minimalStream [[1], cl, [0], [0]]) =
      if cl.length > 2 then .error .malformed
      else .ok ⟨1, intFromBytesSignedBE cl, 0, 0⟩ := by
  have hok := parseMinimalHeaders_ok b2sEnableZstdPresetHeaderNames [[1], cl, [0], [0]] (by rfl)
    (by intro w hw; simp at hw; rcases hw with h | h | h <;> simp [h, hc])
  have hps : parse_simple_headers 1 (minimalStream [[1], cl, [0], [0]])
      b2sEnableZstdPresetHeaderNames =
      .ok (b2sEnableZstdPresetHeaderNames.zip [[1], cl, [0], [0]], []) := by
    rw [parse_simple_headers, if_pos (by norm_num : 1 % 2 = 1), hok]
  have l1 : headerLookup (b2sEnableZstdPresetHeaderNames.zip [[1], cl, [0], [0]])
      (asciiBytes "x-identifier") = some [1] := rfl
  have l2 : headerLookup (b2sEnableZstdPresetHeaderNames.zip [[1], cl, [0], [0]])
      (asciiBytes "x-compression-level") = some cl := rfl
  have l3 : headerLookup (b2sEnableZstdPresetHeaderNames.zip [[1], cl, [0], [0]])
      (asciiBytes "x-min-size") = some [0] := rfl
  have l4 : headerLookup (b2sEnableZstdPresetHeaderNames.zip [[1], cl, [0], [0]])
      (asciiBytes "x-max-size") = some [0] := rfl
  rw [b2s_enable_zstd_preset_parse, hps]
  simp only [l1, l2, l3, l4]
  norm_num [natFromBytesBE]


theorem headerLookup_append_none (acc : Headers) (m w n : List Nat)
    (h1 : headerLookup acc n = none) (h2 : m ≠ n) :
    headerLookup (acc ++ [(m, w)]) n = none := by
  induction acc with
  | nil => simp [headerLookup, h2]
  | cons p rest ih =>
    rw [headerLookup] at h1
    by_cases hp : p.1 = n
    · simp [hp] at h1
    · simp only [List.cons_append, headerLookup, if_neg hp] at h1 ⊢
      exact ih h1

theorem parseExpandedHeadersAux_ok :
    ∀ (headers : List (List Nat × List Nat)) (acc : Headers) (known : List (List Nat)),
      (∀ h ∈ headers, h.1.length ≤ 65535 ∧ h.2.length ≤ 65535) →
      (∀ h ∈ headers, headerLookup acc h.1 = none) →
      (headers.map Prod.fst).Nodup →
      parseExpandedHeadersAux headers.length known acc (expandedBody headers) =
        .ok (acc ++ headers, []) := by
  intro headers
  induction headers with
  | nil =>
    intro acc known _ _ _
    simp [parseExpandedHeadersAux, expandedBody]
  | cons h rest ih =>
    intro acc known hb hacc hnd
    obtain ⟨n, v⟩ := h
    have hn : n.length ≤ 65535 := (hb (n, v) (by simp)).1
    have hv : v.length ≤ 65535 := (hb (n, v) (by simp)).2
    have hstream : expandedBody ((n, v) :: rest) =
        u16be n.length ++ (n ++ (u16be v.length ++ (v ++ expandedBody rest))) := by
      simp [expandedBody, List.append_assoc]
    have hlook : headerLookup acc n = none := hacc (n, v) (by simp)
    have hnotin : n ∉ rest.map Prod.fst := by
      simp only [List.map_cons, List.nodup_cons] at hnd
      exact hnd.1
    rw [List.length_cons, hstream, parseExpandedHeadersAux]
    simp only [readU16_u16be n.length _ hn, readExact_append,
      readU16_u16be v.length _ hv]
    rw [if_neg (by simp [hlook])]
    have hacc2 : ∀ g ∈ rest, headerLookup (acc ++ [(n, v)]) g.1 = none := by
      intro g hg
      refine headerLookup_append_none acc n v g.1 (hacc g (by simp [hg])) ?_
      intro hcontra
      exact hnotin (hcontra ▸ List.mem_map_of_mem Prod.fst hg)
    have hnd2 : (rest.map Prod.fst).Nodup := by
      simp only [List.map_cons, List.nodup_cons] at hnd
      exact hnd.2
    rw [ih (acc ++ [(n, v)]) known (fun g hg => hb g (by simp [hg])) hacc2 hnd2]
    simp

theorem parse_simple_headers_expanded (headers : List (List Nat × List Nat))
    (expected : List (List Nat))
    (hcount : headers.length ≤ 65535)
    (hb : ∀ h ∈ headers, h.1.length ≤ 65535 ∧ h.2.length ≤ 65535)
    (hnd : (headers.map Prod.fst).Nodup) :
    parse_simple_headers 0 (expandedStream headers) expected = .ok (headers, []) := by
  have hbody : expandedStream headers = u16be headers.length ++ expandedBody headers := by
    simp [expandedStream, expandedBody]
  rw [parse_simple_headers, if_neg (by norm_num), hbody]
  simp only [readU16_u16be headers.length _ hcount]
  rw [parseExpandedHeadersAux_ok headers [] expected hb
      (by intro g _; rfl) hnd]
  simp


theorem s2b_configure_parse_expanded (nonce z tr d : List Nat)
    (hn : nonce.length ≤ 65535) (hz : z.length ≤ 65535) (ht : tr.length ≤ 65535)
    (hd : d.length ≤ 65535) :
    s2b_configure_parse 0 (expandedStream
      [(asciiBytes "x-subscriber-nonce", nonce), (asciiBytes "x-enable-zstd", z),
       (asciiBytes "x-enable-training", tr), (asciiBytes "x-initial-dict", d)]) =
      if nonce.length ≠ 32 then .error .malformed
      else if d.length > 2 then .error .malformed
      else .ok ⟨nonce, decide (z = [1]), decide (tr = [1]), natFromBytesBE d⟩ := by
  set hdrs : List (List Nat × List Nat) :=
    [(asciiBytes "x-subscriber-nonce", nonce), (asciiBytes "x-enable-zstd", z),
     (asciiBytes "x-enable-training", tr), (asciiBytes "x-initial-dict", d)] with hdef
  have hps : parse_simple_headers 0 (expandedStream hdrs) s2bConfigureHeaderNames =
      .ok (hdrs, []) := by
    refine parse_simple_headers_expanded hdrs s2bConfigureHeaderNames (by simp [hdef]) ?_ ?_
    · intro g hg
      simp only [hdef, List.mem_cons, List.not_mem_nil, or_false] at hg
      rcases hg with h | h | h | h <;>
        simp [h, hn, hz, ht, hd, asciiBytes]
    · simp only [hdef, List.map_cons, List.map_nil]
      decide
  have l1 : headerLookup hdrs (asciiBytes "x-subscriber-nonce") = some nonce := rfl
  have l2 : headerLookup hdrs (asciiBytes "x-enable-zstd") = some z := rfl
  have l3 : headerLookup hdrs (asciiBytes "x-enable-training") = some tr := rfl
  have l4 : headerLookup hdrs (asciiBytes "x-initial-dict") = some d := rfl
  rw [s2b_configure_parse, hps]
  simp only [l1, l2, l3, l4, Option.getD]


/-- C1: the round-trip law fails on the code: `serialize_s2b_configure` passes three
header names with four header values, so `serialize_simple_message`'s opening
assertion fails (embedded as `none`) in both header modes and no bytes are ever
produced for `S2B_Configure`; parse of serialize cannot equal the input. -/
theorem claim_C1_configure_roundtrip_impossible :
    serialize_s2b_configure ⟨List.replicate 32 1, true, false, 0⟩ true = none
    ∧ serialize_s2b_configure ⟨List.replicate 32 1, true, false, 0⟩ false = none :=
  ⟨rfl, rfl⟩

/-- C7 counterexample: serializing the claimed `S2B_Configure` value in
minimal-headers mode does not produce the claimed byte string. -/
theorem claim_C7_counterexample :
    serialize_s2b_configure ⟨List.replicate 32 1, true, false, 0⟩ true ≠
      some c7ExpectedBytes := by decide

/-- C7 amended: serializing that `S2B_Configure` value in minimal-headers mode
fails the serializer's header-count assertion (three names, four values) and
produces no bytes at all. -/
theorem claim_C7_amended_serialize_asserts :
    serialize_s2b_configure ⟨List.replicate 32 1, true, false, 0⟩ true = none := rfl

/-- C8: parsing an `S2B_Configure` whose `x-initial-dict` header is absent yields
`initial_dict = 48`, not the specified default 0: the code's fallback is the
byte string `b"0"` (0x30), not `b"\x00"`. -/
theorem claim_C8_initial_dict_default_is_48 :
    s2b_configure_parse 1 (minimalStream [List.replicate 32 0, [1], [0]]) =
      .ok ⟨List.replicate 32 0, true, false, 48⟩ := by decide

/-- C9: width bounds. The confirm-configure parser rejects a broadcaster nonce of
any width other than 32 bytes and accepts exactly 32; the continue-notify parser
rejects an identifier over 64 bytes and a part id over 8 bytes and accepts both
at their bounds; the enable-zstd-preset parser rejects a compression level over
2 bytes and accepts up to 2; the configure parser rejects an `x-initial-dict`
value over 2 bytes and accepts up to 2 (all rejections are `Malformed`). -/
theorem claim_C9_header_width_bounds (nonce ident pid cl d : List Nat)
    (hn : nonce.length ≤ 65535) (hi : ident.length ≤ 65535) (hp : pid.length ≤ 65535)
    (hc : cl.length ≤ 65535) (hd : d.length ≤ 65535) :
    (nonce.length ≠ 32 →
      b2s_confirm_configure_parse 1 (minimalStream [nonce]) = .error .malformed)
    ∧ (nonce.length = 32 →
      b2s_confirm_configure_parse 1 (minimalStream [nonce]) = .ok ⟨nonce⟩)
    ∧ (ident.length > 64 →
      b2s_continue_notify_parse 1 (minimalStream [ident, pid]) = .error .malformed)
    ∧ (ident.length ≤ 64 → pid.length > 8 →
      b2s_continue_notify_parse 1 (minimalStream [ident, pid]) = .error .malformed)
    ∧ (ident.length ≤ 64 → pid.length ≤ 8 →
      b2s_continue_notify_parse 1 (minimalStream [ident, pid]) =
        .ok ⟨ident, natFromBytesBE pid⟩)
    ∧ (cl.length > 2 →
      b2s_enable_zstd_preset_parse 1 (minimalStream [[1], cl, [0], [0]]) =
        .error .malformed)
    ∧ (cl.length ≤ 2 →
      b2s_enable_zstd_preset_parse 1 (minimalStream [[1], cl, [0], [0]]) =
        .ok ⟨1, intFromBytesSignedBE cl, 0, 0⟩)
    ∧ (nonce.length = 32 → d.length > 2 →
      s2b_configure_parse 0 (expandedStream
        [(asciiBytes "x-subscriber-nonce", nonce), (asciiBytes "x-enable-zstd", [1]),
         (asciiBytes "x-enable-training", [0]), (asciiBytes "x-initial-dict", d)]) =
        .error .malformed)
    ∧ (nonce.length = 32 → d.length ≤ 2 →
      s2b_configure_parse 0 (expandedStream
        [(asciiBytes "x-subscriber-nonce", nonce), (asciiBytes "x-enable-zstd", [1]),
         (asciiBytes "x-enable-training", [0]), (asciiBytes "x-initial-dict", d)]) =
        .ok ⟨nonce, true, false, natFromBytesBE d⟩) := by
  refine ⟨?_, ?_, ?_, ?_, ?_, ?_, ?_, ?_, ?_⟩
  · intro h
    rw [b2s_confirm_configure_parse_minimal nonce hn, if_pos h]
  · intro h
    rw [b2s_confirm_configure_parse_minimal nonce hn, if_neg (by omega)]
  · intro h
    rw [b2s_continue_notify_parse_minimal ident pid hi hp, if_pos h]
  · intro h1 h2
    rw [b2s_continue_notify_parse_minimal ident pid hi hp, if_neg (by omega), if_pos h2]
  · intro h1 h2
    rw [b2s_continue_notify_parse_minimal ident pid hi hp, if_neg (by omega),
      if_neg (by omega)]
  · intro h
    rw [b2s_enable_zstd_preset_parse_minimal cl hc, if_pos h]
  · intro h
    rw [b2s_enable_zstd_preset_parse_minimal cl hc, if_neg (by omega)]
  · intro h1 h2
    rw [s2b_configure_parse_expanded nonce [1] [0] d hn (by decide) (by decide) hd,
      if_neg (by omega), if_pos h2]
  · intro h1 h2
    rw [s2b_configure_parse_expanded nonce [1] [0] d hn (by decide) (by decide) hd,
      if_neg (by omega), if_neg (by omega)]
    simp

/-- Witness for C9 at the bounds and just past them. -/
theorem claim_C9_header_width_bounds_witness :
    b2s_confirm_configure_parse 1 (minimalStream [List.replicate 33 7]) = .error .malformed
    ∧ b2s_confirm_configure_parse 1 (minimalStream [List.replicate 32 7]) =
        .ok ⟨List.replicate 32 7⟩
    ∧ b2s_continue_notify_parse 1 (minimalStream [List.replicate 65 1, [5]]) =
        .error .malformed
    ∧ b2s_continue_notify_parse 1
        (minimalStream [List.replicate 64 1, List.replicate 8 255]) =
        .ok ⟨List.replicate 64 1, natFromBytesBE (List.replicate 8 255)⟩
    ∧ b2s_enable_zstd_preset_parse 1 (minimalStream [[1], [1, 2, 3], [0], [0]]) =
        .error .malformed
    ∧ b2s_enable_zstd_preset_parse 1 (minimalStream [[1], [255, 236], [0], [0]]) =
        .ok ⟨1, intFromBytesSignedBE [255, 236], 0, 0⟩ := by
  refine ⟨?_, ?_, ?_, ?_, ?_, ?_⟩
  · exact (claim_C9_header_width_bounds (List.replicate 33 7) [] [] [] []
      (by decide) (by decide) (by decide) (by decide) (by decide)).1 (by decide)
  · exact (claim_C9_header_width_bounds (List.replicate 32 7) [] [] [] []
      (by decide) (by decide) (by decide) (by decide) (by decide)).2.1 (by decide)
  · exact (claim_C9_header_width_bounds [] (List.replicate 65 1) [5] [] []
      (by decide) (by decide) (by decide) (by decide) (by decide)).2.2.1 (by decide)
  · exact (claim_C9_header_width_bounds [] (List.replicate 64 1) (List.replicate 8 255) [] []
      (by decide) (by decide) (by decide) (by decide) (by decide)).2.2.2.2.1
      (by decide) (by decide)
  · exact (claim_C9_header_width_bounds [] [] [] [1, 2, 3] []
      (by decide) (by decide) (by decide) (by decide) (by decide)).2.2.2.2.2.1 (by decide)
  · exact (claim_C9_header_width_bounds [] [] [] [255, 236] []
      (by decide) (by decide) (by decide) (by decide) (by decide)).2.2.2.2.2.2.1 (by decide)

/-- C10: any `x-enable-zstd` or `x-enable-training` value is accepted by the
configure parser; the flag is true exactly when the value is the single byte
0x01, and every other value (0x00, empty, multi-byte) maps to false. -/
theorem claim_C10_boolean_headers_lenient (nonce v t : List Nat)
    (hn : nonce.length = 32) (hv : v.length ≤ 65535) (ht : t.length ≤ 65535) :
    ∃ msg, s2b_configure_parse 1 (minimalStream [nonce, v, t]) = .ok msg
      ∧ msg.enable_zstd = decide (v = [1]) ∧ msg.enable_training = decide (t = [1]) := by
  refine ⟨⟨nonce, decide (v = [1]), decide (t = [1]), 48⟩, ?_, rfl, rfl⟩
  rw [s2b_configure_parse_minimal nonce v t (by omega) hv ht, if_neg (by omega)]

/-- Witness for C10 on the values 0x00, empty, and a multi-byte value. -/
theorem claim_C10_boolean_headers_lenient_witness :
    (∃ msg, s2b_configure_parse 1 (minimalStream [List.replicate 32 3, [0], [1]]) = .ok msg
      ∧ msg.enable_zstd = decide (([0] : List Nat) = [1])
      ∧ msg.enable_training = decide (([1] : List Nat) = [1]))
    ∧ (∃ msg, s2b_configure_parse 1 (minimalStream [List.replicate 32 3, [], [1, 1]]) = .ok msg
      ∧ msg.enable_zstd = decide (([] : List Nat) = [1])
      ∧ msg.enable_training = decide (([1, 1] : List Nat) = [1])) := by
  constructor
  · exact claim_C10_boolean_headers_lenient (List.replicate 32 3) [0] [1]
      (by decide) (by decide) (by decide)
  · exact claim_C10_boolean_headers_lenient (List.replicate 32 3) [] [1, 1]
      (by decide) (by decide) (by decide)


theorem pyDigitVal_digitChar (d : Nat) (hd : d < 10) :
    pyDigitVal (Char.ofNat (48 + d)) = some d := by
  revert d hd
  decide

theorem digitChar_props (d : Nat) (hd : d < 10) :
    Char.ofNat (48 + d) ≠ '-' ∧ Char.ofNat (48 + d) ≠ '+' ∧ Char.ofNat (48 + d) ≠ ':'
    ∧ Char.ofNat (48 + d) ≠ '_' ∧ pyIsSpace (Char.ofNat (48 + d)) = false := by
  revert d hd
  decide

theorem parseDigitsUAux_map (l : List Nat) (hl : ∀ d ∈ l, d < 10) :
    parseDigitsUAux (l.map (fun d => Char.ofNat (48 + d))) = some l := by
  induction l with
  | nil => rfl
  | cons d rest ih =>
    have hd : d < 10 := hl d (by simp)
    have hprops := digitChar_props d hd
    rw [List.map_cons, parseDigitsUAux.eq_def]
    simp only [if_neg hprops.2.2.2.1, pyDigitVal_digitChar d hd,
      ih (fun x hx => hl x (by simp [hx])), Option.bind_eq_bind]
    rfl

theorem parseDigitsU_map (l : List Nat) (hl : ∀ d ∈ l, d < 10) (hne : l ≠ []) :
    parseDigitsU (l.map (fun d => Char.ofNat (48 + d))) = some l := by
  cases l with
  | nil => exact absurd rfl hne
  | cons d rest =>
    have hd : d < 10 := hl d (by simp)
    simp only [List.map_cons, parseDigitsU, pyDigitVal_digitChar d hd,
      parseDigitsUAux_map rest (fun x hx => hl x (by simp [hx])), Option.bind_eq_bind]
    rfl

theorem dropWhile_eq_self (P : Char → Bool) (cs : List Char)
    (h : ∀ c ∈ cs, P c = false) : cs.dropWhile P = cs := by
  cases cs with
  | nil => rfl
  | cons a l => rw [List.dropWhile_cons, if_neg (by simp [h a (by simp)])]

theorem pyStrip_no_space (cs : List Char) (h : ∀ c ∈ cs, pyIsSpace c = false) :
    pyStrip cs = cs := by
  rw [pyStrip, dropWhile_eq_self _ _ h,
    dropWhile_eq_self _ _ (fun c hc => h c (List.mem_reverse.mp hc)),
    List.reverse_reverse]

theorem natToChars_digits (n : Nat) :
    ∃ l : List Nat, (∀ d ∈ l, d < 10) ∧ l ≠ [] ∧
      natToChars n = (l.map (fun d => Char.ofNat (48 + d))).reverse ∧
      Nat.ofDigits 10 l = n := by
  by_cases h : n = 0
  · exact ⟨[0], by simp, by simp, by simp [h, natToChars, natDigitsChars], by simp [h]⟩
  · refine ⟨Nat.digits 10 n, ?_, ?_, ?_, Nat.ofDigits_digits 10 n⟩
    · intro d hd
      exact Nat.digits_lt_base (by norm_num) hd
    · simpa using Nat.digits_ne_nil_iff_ne_zero.mpr h
    · simp [natToChars, h, natDigitsChars]

theorem natToChars_no_space (n : Nat) : ∀ c ∈ natToChars n, pyIsSpace c = false := by
  obtain ⟨l, hlt, _, heq, _⟩ := natToChars_digits n
  intro c hc
  rw [heq, List.mem_reverse, List.mem_map] at hc
  obtain ⟨d, hdmem, hdc⟩ := hc
  exact hdc ▸ (digitChar_props d (hlt d hdmem)).2.2.2.2

theorem natToChars_cons (n : Nat) :
    ∃ d rest, d < 10 ∧ natToChars n = Char.ofNat (48 + d) :: rest := by
  obtain ⟨l, hlt, hne, heq, _⟩ := natToChars_digits n
  have hmapped : natToChars n = l.reverse.map (fun d => Char.ofNat (48 + d)) := by
    rw [heq, List.map_reverse]
  cases hrev : l.reverse with
  | nil => exact absurd (List.reverse_eq_nil_iff.mp hrev) hne
  | cons d rest =>
    have hdmem : d ∈ l := List.mem_reverse.mp (hrev ▸ List.mem_cons_self d rest)
    exact ⟨d, rest.map (fun d => Char.ofNat (48 + d)), hlt d hdmem,
      by rw [hmapped, hrev, List.map_cons]⟩

theorem parseDigitsU_natToChars (n : Nat) :
    ∃ ds, parseDigitsU (natToChars n) = some ds ∧ Nat.ofDigits 10 ds.reverse = n := by
  obtain ⟨l, hlt, hne, heq, hval⟩ := natToChars_digits n
  have hmapped : natToChars n = l.reverse.map (fun d => Char.ofNat (48 + d)) := by
    rw [heq, List.map_reverse]
  refine ⟨l.reverse, ?_, by rw [List.reverse_reverse]; exact hval⟩
  rw [hmapped]
  exact parseDigitsU_map l.reverse (fun d hd => hlt d (List.mem_reverse.mp hd))
    (by simpa using hne)

theorem parseIntPy_natToChars (n : Nat) : parseIntPy (natToChars n) = some (n : Int) := by
  obtain ⟨d, rest, hd, hcons⟩ := natToChars_cons n
  obtain ⟨ds, hds, hval⟩ := parseDigitsU_natToChars n
  have hprops := digitChar_props d hd
  have hstrip := pyStrip_no_space _ (natToChars_no_space n)
  rw [parseIntPy, hstrip, hcons]
  simp only [if_neg hprops.1, if_neg hprops.2.1]
  rw [← hcons, hds]
  simp only [Option.map_some', Option.some.injEq]
  exact_mod_cast hval

theorem natToChars_no_colon (n : Nat) : ':' ∉ natToChars n := by
  obtain ⟨l, hlt, _, heq, _⟩ := natToChars_digits n
  rw [heq, List.mem_reverse, List.mem_map]
  rintro ⟨d, hdmem, hdc⟩
  exact (digitChar_props d (hlt d hdmem)).2.2.1 hdc

theorem parseIntPy_intToChars (i : Int) : parseIntPy (intToChars i) = some i := by
  by_cases h : i < 0
  · obtain ⟨ds, hds, hval⟩ := parseDigitsU_natToChars (-i).toNat
    have hspace : ∀ c ∈ '-' :: natToChars (-i).toNat, pyIsSpace c = false := by
      intro c hc
      rcases List.mem_cons.mp hc with hh | hh
      · subst hh
        decide
      · exact natToChars_no_space _ c hh
    have hstrip := pyStrip_no_space _ hspace
    rw [intToChars, if_pos h, parseIntPy, hstrip]
    simp only [reduceIte]
    rw [hds]
    simp only [Option.map_some', Option.some.injEq]
    have hcast : ((Nat.ofDigits 10 ds.reverse : Nat) : Int) = -i := by
      rw [hval]
      exact Int.toNat_of_nonneg (by omega)
    push_cast at hcast ⊢
    omega
  · rw [intToChars, if_neg h, parseIntPy_natToChars]
    congr 1
    omega

theorem intToChars_no_colon (i : Int) : ':' ∉ intToChars i := by
  rw [intToChars]
  split
  · intro hmem
    rcases List.mem_cons.mp hmem with h | h
    · exact absurd h.symm (by decide)
    · exact natToChars_no_colon _ h
  · exact natToChars_no_colon _


theorem splitAtFirst_append (c : Char) (xs ys : List Char) (h : c ∉ xs) :
    splitAtFirst c (xs ++ c :: ys) = some (xs, ys) := by
  induction xs with
  | nil => simp [splitAtFirst]
  | cons x rest ih =>
    have hx : x ≠ c := fun hc => h (by simp [hc])
    have hrest : c ∉ rest := fun hc => h (by simp [hc])
    simp [splitAtFirst, hx, ih hrest]

theorem splitAtFirst_eq_some (c : Char) (s xs ys : List Char)
    (h : splitAtFirst c s = some (xs, ys)) : s = xs ++ c :: ys ∧ c ∉ xs := by
  induction s generalizing xs ys with
  | nil => simp [splitAtFirst] at h
  | cons x rest ih =>
    rw [splitAtFirst] at h
    by_cases hx : x = c
    · rw [if_pos hx] at h
      simp at h
      obtain ⟨h1, h2⟩ := h
      subst h1
      subst h2
      simp [hx]
    · rw [if_neg hx] at h
      match hsplit : splitAtFirst c rest with
      | none => rw [hsplit] at h; simp at h
      | some (as, bs) =>
        rw [hsplit] at h
        simp at h
        obtain ⟨h1, h2⟩ := h
        obtain ⟨hr1, hr2⟩ := ih as bs hsplit
        subst h2
        rw [← h1]
        refine ⟨by simp [hr1], ?_⟩
        intro hmem
        rcases List.mem_cons.mp hmem with hh | hh
        · exact hx hh.symm
        · exact hr2 hh

theorem b64Index_b64Chr (v : Nat) (hv : v < 64) : b64Index (b64Chr v) = some v := by
  revert v hv
  decide

theorem b64Chr_ne_pad (v : Nat) (hv : v < 64) : b64Chr v ≠ '=' := by
  revert v hv
  decide

theorem b64Chr_ne_colon (v : Nat) (hv : v < 64) : b64Chr v ≠ ':' := by
  revert v hv
  decide

theorem b64Chr_ascii (v : Nat) (hv : v < 64) : (b64Chr v).toNat < 128 := by
  revert v hv
  decide


theorem b64Step_finished (s : B64State) (h : s.finished = true) (c : Char) :
    b64Step s c = s := by
  rw [b64Step, if_pos h]

theorem b64fold_finished (cs : List Char) (s : B64State) (h : s.finished = true) :
    cs.foldl b64Step s = s := by
  induction cs with
  | nil => rfl
  | cons c rest ih => rw [List.foldl_cons, b64Step_finished s h c, ih]

theorem b64Step_pad_q0 (out : List Nat) (l p : Nat) :
    b64Step ⟨out, 0, l, p, false⟩ '=' = ⟨out, 0, l, p, false⟩ := rfl

theorem b64Step_pad_q2_p0 (out : List Nat) (l : Nat) :
    b64Step ⟨out, 2, l, 0, false⟩ '=' = ⟨out, 2, l, 1, false⟩ := rfl

theorem b64Step_pad_q2_p1 (out : List Nat) (l : Nat) :
    b64Step ⟨out, 2, l, 1, false⟩ '=' = ⟨out, 2, l, 2, true⟩ := rfl

theorem b64Step_pad_q3_p0 (out : List Nat) (l : Nat) :
    b64Step ⟨out, 3, l, 0, false⟩ '=' = ⟨out, 3, l, 1, true⟩ := rfl

theorem b64Step_data_q0 (out : List Nat) (l p v : Nat) (hv : v < 64) :
    b64Step ⟨out, 0, l, p, false⟩ (b64Chr v) = ⟨out, 1, v, 0, false⟩ := by
  rw [b64Step]
  simp [b64Chr_ne_pad v hv, b64Index_b64Chr v hv]

theorem b64Step_data_q1 (out : List Nat) (l p v : Nat) (hv : v < 64) :
    b64Step ⟨out, 1, l, p, false⟩ (b64Chr v) =
      ⟨out ++ [(l * 4 + v / 16) % 256], 2, v % 16, 0, false⟩ := by
  rw [b64Step]
  simp [b64Chr_ne_pad v hv, b64Index_b64Chr v hv]

theorem b64Step_data_q2 (out : List Nat) (l p v : Nat) (hv : v < 64) :
    b64Step ⟨out, 2, l, p, false⟩ (b64Chr v) =
      ⟨out ++ [(l * 16 + v / 4) % 256], 3, v % 4, 0, false⟩ := by
  rw [b64Step]
  simp [b64Chr_ne_pad v hv, b64Index_b64Chr v hv]

theorem b64Step_data_q3 (out : List Nat) (l p v : Nat) (hv : v < 64) :
    b64Step ⟨out, 3, l, p, false⟩ (b64Chr v) =
      ⟨out ++ [(l * 64 + v) % 256], 0, 0, 0, false⟩ := by
  rw [b64Step]
  simp [b64Chr_ne_pad v hv, b64Index_b64Chr v hv]

theorem b64_fold_encode (bs : List Nat) :
    ∀ out : List Nat, (∀ b ∈ bs, b < 256) →
    ((((b64encode bs ++ ['=', '=']).foldl b64Step ⟨out, 0, 0, 0, false⟩).finished = true ∨
      ((b64encode bs ++ ['=', '=']).foldl b64Step ⟨out, 0, 0, 0, false⟩).quadPos = 0) ∧
    ((b64encode bs ++ ['=', '=']).foldl b64Step ⟨out, 0, 0, 0, false⟩).out = out ++ bs) := by
  induction bs using b64encode.induct with
  | case1 =>
    intro out h
    simp [b64encode, List.foldl_cons, b64Step_pad_q0]
  | case2 a =>
    intro out h
    have ha : a < 256 := h a (by simp)
    have hv1 : a / 4 < 64 := by omega
    have hv2 : a % 4 * 16 < 64 := by omega
    have e1 : (a / 4 * 4 + a % 4 * 16 / 16) % 256 = a := by omega
    rw [b64encode, List.cons_append, List.cons_append, List.cons_append,
      List.cons_append, List.nil_append,
      List.foldl_cons, b64Step_data_q0 out 0 0 (a / 4) hv1,
      List.foldl_cons, b64Step_data_q1 out (a / 4) 0 (a % 4 * 16) hv2,
      List.foldl_cons, b64Step_pad_q2_p0,
      List.foldl_cons, b64Step_pad_q2_p1,
      b64fold_finished _ _ rfl, e1]
    simp
  | case3 a b =>
    intro out h
    have ha : a < 256 := h a (by simp)
    have hb : b < 256 := h b (by simp)
    have hv1 : a / 4 < 64 := by omega
    have hv2 : a % 4 * 16 + b / 16 < 64 := by omega
    have hv3 : b % 16 * 4 < 64 := by omega
    have e1 : (a / 4 * 4 + (a % 4 * 16 + b / 16) / 16) % 256 = a := by omega
    have e2 : ((a % 4 * 16 + b / 16) % 16 * 16 + b % 16 * 4 / 4) % 256 = b := by omega
    rw [b64encode, List.cons_append, List.cons_append, List.cons_append,
      List.cons_append, List.nil_append,
      List.foldl_cons, b64Step_data_q0 out 0 0 (a / 4) hv1,
      List.foldl_cons, b64Step_data_q1 out (a / 4) 0 (a % 4 * 16 + b / 16) hv2,
      List.foldl_cons, b64Step_data_q2 _ ((a % 4 * 16 + b / 16) % 16) 0 (b % 16 * 4) hv3,
      List.foldl_cons, b64Step_pad_q3_p0,
      b64fold_finished _ _ rfl, e1, e2]
    simp
  | case4 a b c rest ih =>
    intro out h
    have ha : a < 256 := h a (by simp)
    have hb : b < 256 := h b (by simp)
    have hc : c < 256 := h c (by simp)
    have hrest : ∀ x ∈ rest, x < 256 := fun x hx => h x (by simp [hx])
    have hv1 : a / 4 < 64 := by omega
    have hv2 : a % 4 * 16 + b / 16 < 64 := by omega
    have hv3 : b % 16 * 4 + c / 64 < 64 := by omega
    have hv4 : c % 64 < 64 := by omega
    have e1 : (a / 4 * 4 + (a % 4 * 16 + b / 16) / 16) % 256 = a := by omega
    have e2 : ((a % 4 * 16 + b / 16) % 16 * 16 + (b % 16 * 4 + c / 64) / 4) % 256 = b := by
      omega
    have e3 : ((b % 16 * 4 + c / 64) % 4 * 64 + c % 64) % 256 = c := by omega
    rw [b64encode, List.cons_append, List.cons_append, List.cons_append, List.cons_append,
      List.foldl_cons, b64Step_data_q0 out 0 0 (a / 4) hv1,
      List.foldl_cons, b64Step_data_q1 out (a / 4) 0 (a % 4 * 16 + b / 16) hv2,
      List.foldl_cons, b64Step_data_q2 _ ((a % 4 * 16 + b / 16) % 16) 0
        (b % 16 * 4 + c / 64) hv3,
      List.foldl_cons, b64Step_data_q3 _ ((b % 16 * 4 + c / 64) % 4) 0 (c % 64) hv4,
      e1, e2, e3]
    have hih := ih (out ++ [a, b, c]) hrest
    simpa [List.append_assoc] using hih

theorem b64encode_ascii (bs : List Nat) :
    (∀ b ∈ bs, b < 256) → ∀ c ∈ b64encode bs, c.toNat < 128 := by
  induction bs using b64encode.induct with
  | case1 =>
    intro h
    simp [b64encode]
  | case2 a =>
    intro h
    have ha : a < 256 := h a (by simp)
    intro c hc
    rw [b64encode] at hc
    simp at hc
    rcases hc with hh | hh | hh
    · exact hh ▸ b64Chr_ascii _ (by omega)
    · exact hh ▸ b64Chr_ascii _ (by omega)
    · simp [hh]
  | case3 a b =>
    intro h
    have ha : a < 256 := h a (by simp)
    have hb : b < 256 := h b (by simp)
    intro c hc
    rw [b64encode] at hc
    simp at hc
    rcases hc with hh | hh | hh | hh
    · exact hh ▸ b64Chr_ascii _ (by omega)
    · exact hh ▸ b64Chr_ascii _ (by omega)
    · exact hh ▸ b64Chr_ascii _ (by omega)
    · simp [hh]
  | case4 a b c rest ih =>
    intro h
    have ha : a < 256 := h a (by simp)
    have hb : b < 256 := h b (by simp)
    have hc2 : c < 256 := h c (by simp)
    have hrest := ih (fun x hx => h x (by simp [hx]))
    intro x hx
    rw [b64encode] at hx
    simp at hx
    rcases hx with hh | hh | hh | hh | hh
    · exact hh ▸ b64Chr_ascii _ (by omega)
    · exact hh ▸ b64Chr_ascii _ (by omega)
    · exact hh ▸ b64Chr_ascii _ (by omega)
    · exact hh ▸ b64Chr_ascii _ (by omega)
    · exact hrest x hh

theorem b64_roundtrip (bs : List Nat) (h : ∀ b ∈ bs, b < 256) :
    b64decodeChars (b64encode bs ++ ['=', '=']) = some bs := by
  have hascii : ∀ c ∈ b64encode bs ++ ['=', '='], c.toNat < 128 := by
    intro c hc
    rcases List.mem_append.mp hc with hh | hh
    · exact b64encode_ascii bs h c hh
    · simp at hh
      simp [hh]
  have hall : (b64encode bs ++ ['=', '=']).all (fun c => c.toNat < 128) = true := by
    rw [List.all_eq_true]
    intro c hc
    exact decide_eq_true (hascii c hc)
  obtain ⟨hfin, hout⟩ := b64_fold_encode bs [] h
  rw [b64decodeChars, if_pos hall]
  rcases hfin with hf | hq
  · rw [if_pos hf, hout]
    rfl
  · by_cases hf2 : ((b64encode bs ++ ['=', '=']).foldl b64Step ⟨[], 0, 0, 0, false⟩).finished
    · rw [if_pos hf2, hout]
      rfl
    · rw [if_neg hf2, if_pos hq, hout]
      rfl


theorem isPrefixOf_append (l r : List Char) : l.isPrefixOf (l ++ r) = true := by
  induction l with
  | nil => simp [List.isPrefixOf]
  | cons a as ih => simp [List.isPrefixOf, ih]

theorem get_token_sign (hmacFn : List Nat → List Nat → List Nat)
    (secret to_sign : List Nat) (nonce : List Char) (t now L : ℚ)
    (hnc : ':' ∉ nonce)
    (hlen64 : (hmacFn secret to_sign).length = 64)
    (hbytes : ∀ b ∈ hmacFn secret to_sign, b < 256)
    (htime : |now - ((pyTrunc t : Int) : ℚ)| ≤ L) :
    get_token (some (sign hmacFn secret to_sign nonce t)) now L =
      .found (pyTrunc t) nonce (hmacFn secret to_sign) := by
  have hdrop : (sign hmacFn secret to_sign nonce t).drop 7 =
      intToChars (pyTrunc t) ++
        ':' :: (nonce ++ ':' :: b64encode (hmacFn secret to_sign)) := by
    rw [sign, List.append_assoc]
    have h7 : 7 = xhmacHeader.length := rfl
    rw [h7, List.drop_left]
  have hpre : xhmacHeader.isPrefixOf (sign hmacFn secret to_sign nonce t) = true := by
    rw [sign, List.append_assoc]
    exact isPrefixOf_append _ _
  rw [get_token, if_pos hpre, hdrop]
  simp only [splitAtFirst_append ':' (intToChars (pyTrunc t)) _
    (intToChars_no_colon (pyTrunc t))]
  simp only [parseIntPy_intToChars (pyTrunc t)]
  rw [if_neg (not_lt.mpr htime)]
  simp only [splitAtFirst_append ':' nonce _ hnc]
  simp only [b64_roundtrip (hmacFn secret to_sign) hbytes]
  rw [if_neg (by rw [hlen64]; trivial)]

theorem pyTrunc_nine_tenths : pyTrunc (9 / 10 : ℚ) = 0 := by
  rw [pyTrunc, if_pos (by norm_num), Int.floor_eq_iff] <;> norm_num

theorem sign_c2 (t : ℚ) (h : pyTrunc t = 0) :
    sign c2HmacFn [] c2ToSign ['n'] t = c2Token := by
  rw [sign, h]
  rfl

/-- C2 counterexample: the claim fails on the program's real-valued clock.
`authorize_subscribe_exact` at `t = 0.9` signs the truncated timestamp
`int(0.9) = 0`, so verifying the token at drift `119.5` (within the token
lifetime 120, fresh store) compares `|120.4 - 0| > 120` and returns `forbidden`
where the claim demands `ok`. -/
theorem claim_C2_counterexample :
    |(239 / 2 : ℚ)| ≤ 120
    ∧ authorize_subscribe_exact c2HmacFn [] ['u'] none [116] (9 / 10) ['n'] =
        some c2Token
    ∧ is_subscribe_exact_allowed c2HmacFn [] 120 ['u'] none [116] (9 / 10 + 239 / 2)
        (some c2Token) [] = some (.forbidden, []) := by
  refine ⟨by rw [abs_of_nonneg (by norm_num)]; norm_num, ?_, ?_⟩
  · rw [authorize_subscribe_exact, pyTrunc_nine_tenths]
    have hprep : prepare_subscribe_exact ['u'] none [116] 0 ['n'] = some c2ToSign := by
      decide
    rw [hprep, Option.map_some', sign_c2 _ pyTrunc_nine_tenths]
  · have hget : get_token (some c2Token) (9 / 10 + 239 / 2) 120 = .forbidden := by
      rw [get_token, if_pos (by decide)]
      have h1 : splitAtFirst ':' (c2Token.drop 7) =
          some (['0'], ['n'] ++ ':' :: b64encode (List.range 64)) := by decide
      simp only [h1]
      have h2 : parseIntPy ['0'] = some 0 := by decide
      simp only [h2]
      rw [if_pos (by push_cast; rw [sub_zero, abs_of_nonneg (by norm_num)]; norm_num)]
    rw [is_subscribe_exact_allowed, hget]

/-- C2 amended: the HMAC token roundtrip for `subscribe_exact` with the window
measured from the truncated timestamp. For every digest function producing
64-byte digests, verifying a token produced by `authorize_subscribe_exact` at
clock `t` succeeds at any verification time `t + d` with
`|t + d - int(t)| ≤ token_lifetime` (so the acceptance window shrinks by the
fractional part of `t` at the upper edge) provided the replay store has not
recorded the digest; the digest is recorded, and a second verification of the
same token is forbidden (replay conflict). -/
theorem claim_C2_amended_token_roundtrip
    (hmacFn : List Nat → List Nat → List Nat) (secret : List Nat)
    (url : List Char) (recovery : Option (List Char)) (exact : List Nat)
    (t d d2 L : ℚ) (nonce : List Char) (store : List (List Nat)) (toSign : List Nat)
    (hlen : ∀ s m, (hmacFn s m).length = 64)
    (hbytes : ∀ s m, ∀ b ∈ hmacFn s m, b < 256)
    (hnc : ':' ∉ nonce)
    (hprep : prepare_subscribe_exact url recovery exact (pyTrunc t) nonce = some toSign)
    (hd1 : |t + d - ((pyTrunc t : Int) : ℚ)| ≤ L)
    (hd2 : |t + d2 - ((pyTrunc t : Int) : ℚ)| ≤ L)
    (hfresh : hmacFn secret toSign ∉ store) :
    authorize_subscribe_exact hmacFn secret url recovery exact t nonce =
      some (sign hmacFn secret toSign nonce t)
    ∧ is_subscribe_exact_allowed hmacFn secret L url recovery exact (t + d)
        (some (sign hmacFn secret toSign nonce t)) store =
        some (.ok, hmacFn secret toSign :: store)
    ∧ is_subscribe_exact_allowed hmacFn secret L url recovery exact (t + d2)
        (some (sign hmacFn secret toSign nonce t)) (hmacFn secret toSign :: store) =
        some (.forbidden, hmacFn secret toSign :: store) := by
  have htok1 : get_token (some (sign hmacFn secret toSign nonce t)) (t + d) L =
      .found (pyTrunc t) nonce (hmacFn secret toSign) :=
    get_token_sign hmacFn secret toSign nonce t (t + d) L hnc (hlen secret toSign)
      (hbytes secret toSign) hd1
  have htok2 : get_token (some (sign hmacFn secret toSign nonce t)) (t + d2) L =
      .found (pyTrunc t) nonce (hmacFn secret toSign) :=
    get_token_sign hmacFn secret toSign nonce t (t + d2) L hnc (hlen secret toSign)
      (hbytes secret toSign) hd2
  refine ⟨?_, ?_, ?_⟩
  · rw [authorize_subscribe_exact, hprep, Option.map_some']
  · rw [is_subscribe_exact_allowed, htok1]
    simp only [hprep]
    rw [check_code, if_pos rfl, mark_code_used, if_neg hfresh]
  · rw [is_subscribe_exact_allowed, htok2]
    simp only [hprep]
    rw [check_code, if_pos rfl, mark_code_used, if_pos (List.mem_cons_self _ _)]

/-- Witness for the amended C2 with a fixed 64-byte digest function, url `u`,
topic `t`, clock 0.9, drift 100, nonce `n`, lifetime 120, on an empty store. -/
theorem claim_C2_amended_token_roundtrip_witness :
    authorize_subscribe_exact c2HmacFn [] ['u'] none [116] (9 / 10) ['n'] =
      some c2Token
    ∧ is_subscribe_exact_allowed c2HmacFn [] 120 ['u'] none [116] (9 / 10 + 100)
        (some c2Token) [] = some (.ok, [c2HmacFn [] c2ToSign])
    ∧ is_subscribe_exact_allowed c2HmacFn [] 120 ['u'] none [116] (9 / 10 + 100)
        (some c2Token) [c2HmacFn [] c2ToSign] =
        some (.forbidden, [c2HmacFn [] c2ToSign]) := by
  obtain ⟨h1, h2, h3⟩ := claim_C2_amended_token_roundtrip c2HmacFn [] ['u'] none [116]
    (9 / 10) 100 100 120 ['n'] [] c2ToSign (fun s m => by simp [c2HmacFn])
    (fun s m b hb => by simp only [c2HmacFn, List.mem_range] at hb; omega)
    (by decide) (by rw [pyTrunc_nine_tenths]; decide)
    (by rw [pyTrunc_nine_tenths]; push_cast;
        rw [sub_zero, abs_of_nonneg (by norm_num)]; norm_num)
    (by rw [pyTrunc_nine_tenths]; push_cast;
        rw [sub_zero, abs_of_nonneg (by norm_num)]; norm_num)
    (by decide)
  have hs : sign c2HmacFn [] c2ToSign ['n'] (9 / 10) = c2Token :=
    sign_c2 _ pyTrunc_nine_tenths
  rw [hs] at h1 h2 h3
  exact ⟨h1, h2, h3⟩

theorem get_token_found_iff (s : List Char) (now L : ℚ) (ts : Int) (nonce : List Char)
    (mac : List Nat) :
    get_token (some s) now L = .found ts nonce mac ↔
      TokenAccepted s now L ts nonce mac := by
  constructor
  · intro h
    rw [get_token] at h
    split at h
    case isTrue h1 =>
      obtain ⟨r, hr⟩ := List.isPrefixOf_iff_prefix.mp h1
      have hdrop : s.drop 7 = r := by
        rw [← hr]
        have h7 : 7 = xhmacHeader.length := rfl
        rw [h7, List.drop_left]
      rw [hdrop] at h
      cases hsp : splitAtFirst ':' r with
      | none => rw [hsp] at h; exact absurd h (by simp)
      | some p1 =>
        obtain ⟨tsStr, rest2⟩ := p1
        rw [hsp] at h
        obtain ⟨hre, htsn⟩ := splitAtFirst_eq_some ':' r tsStr rest2 hsp
        cases hp : parseIntPy tsStr with
        | none =>
          simp only [hp] at h
          exact absurd h (by simp)
        | some ts1 =>
          simp only [hp] at h
          by_cases htl : L < |now - ts1|
          · rw [if_pos htl] at h
            exact absurd h (by simp)
          · rw [if_neg htl] at h
            cases hs2 : splitAtFirst ':' rest2 with
            | none =>
              simp only [hs2] at h
              exact absurd h (by simp)
            | some p2 =>
              obtain ⟨n1, codeStr⟩ := p2
              simp only [hs2] at h
              obtain ⟨hre2, hnn⟩ := splitAtFirst_eq_some ':' rest2 n1 codeStr hs2
              cases hdec : b64decodeChars (codeStr ++ ['=', '=']) with
              | none =>
                simp only [hdec] at h
                exact absurd h (by simp)
              | some mac1 =>
                simp only [hdec] at h
                by_cases hml : mac1.length ≠ 64
                · rw [if_pos hml] at h
                  exact absurd h (by simp)
                · rw [if_neg hml] at h
                  have hinj := h
                  simp only [TokenInfo.found.injEq] at hinj
                  obtain ⟨e1, e2, e3⟩ := hinj
                  refine ⟨tsStr, codeStr, ?_, htsn, ?_, ?_, ?_, ?_, ?_⟩
                  · rw [← hr, hre, hre2, e2]
                  · rw [← e2]
                    exact hnn
                  · rw [← e1]
                    exact hp
                  · rw [← e1]
                    exact not_lt.mp htl
                  · rw [← e3]
                    exact hdec
                  · rw [← e3]
                    exact not_ne_iff.mp hml
    case isFalse h1 => exact absurd h (by simp)
  · rintro ⟨tsStr, codeStr, hs, htn, hnn, hparse, htime, hdec, hlen⟩
    have hpre : xhmacHeader.isPrefixOf s = true := by
      rw [hs]
      exact isPrefixOf_append _ _
    have hdrop : s.drop 7 = tsStr ++ ':' :: (nonce ++ ':' :: codeStr) := by
      rw [hs]
      have h7 : 7 = xhmacHeader.length := rfl
      rw [h7, List.drop_left]
    rw [get_token, if_pos hpre, hdrop]
    simp only [splitAtFirst_append ':' tsStr _ htn]
    simp only [hparse]
    rw [if_neg (not_lt.mpr htime)]
    simp only [splitAtFirst_append ':' nonce _ hnn]
    simp only [hdec]
    rw [if_neg (by rw [hlen]; trivial)]


theorem get_token_some_ne_unauthorized (s : List Char) (now L : ℚ) :
    get_token (some s) now L ≠ .unauthorized := by
  rw [get_token]
  split
  · cases hsp : splitAtFirst ':' (s.drop 7) with
    | none => simp
    | some p1 =>
      obtain ⟨tsStr, rest2⟩ := p1
      simp only []
      cases hp : parseIntPy tsStr with
      | none => simp
      | some ts1 =>
        simp only []
        split
        · simp
        · cases hs2 : splitAtFirst ':' rest2 with
          | none => simp
          | some p2 =>
            obtain ⟨n1, codeStr⟩ := p2
            simp only []
            cases hdec : b64decodeChars (codeStr ++ ['=', '=']) with
            | none => simp
            | some mac1 =>
              simp only []
              split
              · simp
              · simp
  · simp

/-- C3: `get_token` returns `Unauthorized` exactly on a missing header; on a
present header it returns `Found` with the parsed timestamp, nonce and 64-byte
digest exactly when the string satisfies the claim's acceptance condition
(`TokenAccepted`), and `Forbidden` exactly otherwise. -/
theorem claim_C3_get_token_taxonomy :
    (∀ now L : ℚ, get_token none now L = .unauthorized)
    ∧ (∀ (s : List Char) (now L : ℚ), get_token (some s) now L ≠ .unauthorized)
    ∧ (∀ (s : List Char) (now L : ℚ) (ts : Int) (nonce : List Char) (mac : List Nat),
        get_token (some s) now L = .found ts nonce mac ↔
          TokenAccepted s now L ts nonce mac)
    ∧ (∀ (s : List Char) (now L : ℚ),
        get_token (some s) now L = .forbidden ↔
          ¬ ∃ ts nonce mac, TokenAccepted s now L ts nonce mac) := by
  refine ⟨fun now L => rfl, get_token_some_ne_unauthorized, get_token_found_iff, ?_⟩
  intro s now L
  constructor
  · rintro h ⟨ts, nonce, mac, hacc⟩
    rw [(get_token_found_iff s now L ts nonce mac).mpr hacc] at h
    simp at h
  · intro hne
    cases hgt : get_token (some s) now L with
    | unauthorized => exact absurd hgt (get_token_some_ne_unauthorized s now L)
    | forbidden => rfl
    | found ts nonce mac =>
      exact absurd ⟨ts, nonce, mac, (get_token_found_iff s now L ts nonce mac).mp hgt⟩ hne

/-- Witness for C3: a missing header is unauthorized; the spec's literal
scenario token `X-HMAC 0:n:AA==` (1-byte digest) satisfies no acceptance
decomposition and is forbidden. -/
theorem claim_C3_get_token_taxonomy_witness :
    get_token none 0 120 = .unauthorized
    ∧ get_token (some ("X-HMAC 0:n:AA==".toList)) 0 120 = .forbidden
    ∧ ¬ ∃ ts nonce mac, TokenAccepted ("X-HMAC 0:n:AA==".toList) 0 120 ts nonce mac := by
  have hfb : get_token (some ("X-HMAC 0:n:AA==".toList)) 0 120 = .forbidden := by
    rw [get_token, if_pos (by decide)]
    have h1 : splitAtFirst ':' (("X-HMAC 0:n:AA==".toList).drop 7) =
        some (['0'], "n:AA==".toList) := by decide
    simp only [h1]
    have h2 : parseIntPy ['0'] = some 0 := by decide
    simp only [h2]
    rw [if_neg (by push_cast; rw [sub_zero, abs_zero]; norm_num)]
    have h3 : splitAtFirst ':' ("n:AA==".toList) = some (['n'], "AA==".toList) := by
      decide
    simp only [h3]
    have h4 : b64decodeChars ("AA==".toList ++ ['=', '=']) = some [0] := by decide
    simp only [h4]
    rw [if_pos (by decide)]
  refine ⟨claim_C3_get_token_taxonomy.1 0 120, hfb,
    (claim_C3_get_token_taxonomy.2.2.2 ("X-HMAC 0:n:AA==".toList) 0 120).mp hfb⟩


theorem prepareToSign_head (p : AuthParams) (b : List Nat)
    (hb : prepareToSign p = some b) :
    b.head? = some (authMessageTag (authParamsOp p)) := by
  cases p with
  | subscribeExact url recovery exact timestamp nonce =>
    have htagEq : natToBytesBE (authMessageTag AuthMessageType.SUBSCRIBE_EXACT) 1 =
        some [1] := by decide
    simp only [prepareToSign, prepare_subscribe_exact, htagEq, Option.pure_def,
      Option.bind_eq_bind, Option.some_bind, Option.bind_eq_some, Option.some.injEq] at hb
    obtain ⟨ets, hets, nl, hnl, ul, hul, rl, hrl, el, hel, hret⟩ := hb
    rw [← hret]
    rfl
  | subscribeGlob url recovery glob timestamp nonce =>
    have htagEq : natToBytesBE (authMessageTag AuthMessageType.SUBSCRIBE_GLOB) 1 =
        some [2] := by decide
    simp only [prepareToSign, prepare_subscribe_glob, htagEq, Option.pure_def,
      Option.bind_eq_bind, Option.some_bind, Option.bind_eq_some, Option.some.injEq] at hb
    obtain ⟨ets, hets, nl, hnl, ul, hul, rl, hrl, gl, hgl, hret⟩ := hb
    rw [← hret]
    rfl
  | notify topic sha timestamp nonce =>
    have htagEq : natToBytesBE (authMessageTag AuthMessageType.NOTIFY) 1 =
        some [3] := by decide
    simp only [prepareToSign, prepare_notify, htagEq, Option.pure_def,
      Option.bind_eq_bind, Option.some_bind, Option.bind_eq_some, Option.some.injEq] at hb
    obtain ⟨ets, hets, nl, hnl, tl, htl, hret⟩ := hb
    rw [← hret]
    rfl
  | websocketConfigure subNonce z tr dict timestamp nonce =>
    have htagEq : natToBytesBE (authMessageTag AuthMessageType.WEBSOCKET_CONFIGURE) 1 =
        some [4] := by decide
    simp only [prepareToSign, prepare_stateful_configure, htagEq, Option.pure_def,
      Option.bind_eq_bind, Option.some_bind, Option.bind_eq_some, Option.some.injEq] at hb
    obtain ⟨ets, hets, nl, hnl, sl, hsl, dl, hdl, hret⟩ := hb
    rw [← hret]
    rfl
  | checkSubscriptions url timestamp nonce =>
    have htagEq : natToBytesBE (authMessageTag AuthMessageType.CHECK_SUBSCRIPTIONS) 1 =
        some [5] := by decide
    simp only [prepareToSign, prepare_check_subscriptions, htagEq, Option.pure_def,
      Option.bind_eq_bind, Option.some_bind, Option.bind_eq_some, Option.some.injEq] at hb
    obtain ⟨ets, hets, nl, hnl, ul, hul, hret⟩ := hb
    rw [← hret]
    rfl
  | setSubscriptions url etag timestamp nonce =>
    have htagEq : natToBytesBE (authMessageTag AuthMessageType.SET_SUBSCRIPTIONS) 1 =
        some [6] := by decide
    simp only [prepareToSign, prepare_set_subscriptions, htagEq, Option.pure_def,
      Option.bind_eq_bind, Option.some_bind, Option.bind_eq_some, Option.some.injEq] at hb
    obtain ⟨fb, hfb, ets, hets, nl, hnl, ul, hul, hret⟩ := hb
    rw [← hret]
    rfl
  | receive url topic sha timestamp nonce =>
    have htagEq : natToBytesBE (authMessageTag AuthMessageType.RECEIVE) 1 =
        some [7] := by decide
    rw [prepareToSign, prepare_receive.eq_def] at hb
    split at hb
    · exact absurd hb (by simp)
    · simp only [htagEq, Option.pure_def, Option.bind_eq_bind, Option.some_bind,
        Option.bind_eq_some, Option.some.injEq] at hb
      obtain ⟨ets, hets, nl, hnl, ul, hul, tl, htl, hret⟩ := hb
      rw [← hret]
      rfl
  | missed recovery topic timestamp nonce =>
    have htagEq : natToBytesBE (authMessageTag AuthMessageType.MISSED) 1 =
        some [8] := by decide
    simp only [prepareToSign, prepare_missed, htagEq, Option.pure_def,
      Option.bind_eq_bind, Option.some_bind, Option.bind_eq_some, Option.some.injEq] at hb
    obtain ⟨ets, hets, nl, hnl, rl, hrl, tl, htl, hret⟩ := hb
    rw [← hret]
    rfl
  | websocketConfirmConfigure bNonce timestamp nonce =>
    have htagEq : natToBytesBE
        (authMessageTag AuthMessageType.WEBSOCKET_CONFIRM_CONFIGURE) 1 =
        some [9] := by decide
    simp only [prepareToSign, prepare_stateful_confirm_configure, htagEq, Option.pure_def,
      Option.bind_eq_bind, Option.some_bind, Option.bind_eq_some, Option.some.injEq] at hb
    obtain ⟨ets, hets, nl, hnl, bl, hbl, hret⟩ := hb
    rw [← hret]
    rfl


/-- C6: canonical to-sign buffers of distinct authorized operations are always
distinct, whatever the parameter tuples: every buffer begins with the 1-byte
operation tag, and the nine tags are pairwise distinct. -/
theorem claim_C6_to_sign_domain_separation (p1 p2 : AuthParams) (b1 b2 : List Nat)
    (hop : authParamsOp p1 ≠ authParamsOp p2)
    (h1 : prepareToSign p1 = some b1) (h2 : prepareToSign p2 = some b2) :
    b1 ≠ b2 := by
  intro heq
  apply hop
  have e1 := prepareToSign_head p1 b1 h1
  have e2 := prepareToSign_head p2 b2 h2
  rw [heq, e2, Option.some.injEq] at e1
  have hinj : ∀ x y : AuthMessageType, authMessageTag x = authMessageTag y → x = y := by
    intro x y hxy
    cases x <;> cases y <;> first | rfl | simp [authMessageTag] at hxy
  exact hinj _ _ e1.symm

/-- Witness for C6: a subscribe-exact buffer and a websocket-confirm-configure
buffer with concrete parameters are distinct. -/
theorem claim_C6_to_sign_domain_separation_witness :
    ∃ b1 b2,
      prepareToSign (.subscribeExact ['u'] none [116] 0 ['n']) = some b1
      ∧ prepareToSign (.websocketConfirmConfigure (List.replicate 32 0) 0 ['n']) = some b2
      ∧ b1 ≠ b2 := by
  refine ⟨_, _, rfl, rfl, ?_⟩
  exact claim_C6_to_sign_domain_separation
    (.subscribeExact ['u'] none [116] 0 ['n'])
    (.websocketConfirmConfigure (List.replicate 32 0) 0 ['n']) _ _ (by decide) rfl rfl

/-- C4: the claim fails on the code. `is_stateful_confirm_configure_allowed`
reads `message.authorization`, a field `B2S_ConfirmConfigure` does not declare,
so the call raises `AttributeError` (embedded: returns `none`) instead of one of
the four verdicts, for every message and time. -/
theorem claim_C4_confirm_configure_allowed_raises :
    is_stateful_confirm_configure_allowed ⟨List.replicate 32 0⟩ 0 = none
    ∧ ∀ (message : B2S_ConfirmConfigure) (now : ℚ) (r : AuthResult),
        is_stateful_confirm_configure_allowed message now ≠ some r := by
  refine ⟨rfl, ?_⟩
  intro message now r h
  simp [is_stateful_confirm_configure_allowed] at h


theorem sqlite_presence_preserved (L : Int) (code : List Nat) (e : Int)
    (evs : List StoreEvent) :
    ∀ rows : SqlRows, (code, e) ∈ rows →
      (∀ ev ∈ evs, storeEventTime ev ≤ (e : ℚ)) →
      (code, e) ∈ runStoreEvents L rows evs := by
  induction evs with
  | nil =>
    intro rows hmem _
    exact hmem
  | cons ev rest ih =>
    intro rows hmem hb
    have hrest : ∀ x ∈ rest, storeEventTime x ≤ (e : ℚ) := fun x hx => hb x (by simp [hx])
    have hstep : (code, e) ∈ runStoreEvent L rows ev := by
      cases ev with
      | mark c2 τ =>
        rw [runStoreEvent, sqlite_mark_code_used]
        split
        · exact hmem
        · exact List.mem_append_left _ hmem
      | cleanup τ =>
        rw [runStoreEvent, sqlite_cleanup]
        have hτ : τ ≤ (e : ℚ) := hb (.cleanup τ) (by simp)
        have hfl : (⌊τ⌋ : Int) ≤ e := by
          have h1 : ⌊τ⌋ ≤ ⌊(e : ℚ)⌋ := Int.floor_le_floor hτ
          rwa [Int.floor_intCast] at h1
        exact List.mem_filter.mpr ⟨hmem, by simpa using hfl⟩
    rw [runStoreEvents, List.foldl_cons]
    exact ih (runStoreEvent L rows ev) hstep hrest

/-- C5: on the sqlite replay store, once `mark_code_used` has returned `ok` for a
code, every later `mark_code_used` for the same code within `token_lifetime`
seconds returns `conflict` (whatever marks and cleanup passes ran in between,
all at times within the lifetime window); and a cleanup pass removes the
inserted record only at a time strictly more than `token_lifetime` seconds
after the insertion. -/
theorem claim_C5_sqlite_replay_invariants (rows0 : SqlRows) (code : List Nat)
    (t t2 : ℚ) (L : Int) (evs : List StoreEvent)
    (hok : (sqlite_mark_code_used rows0 code t L).1 = .ok)
    (hevs : ∀ ev ∈ evs, storeEventTime ev ≤ t + (L : ℚ))
    (ht2 : t2 ≤ t + (L : ℚ)) :
    (sqlite_mark_code_used
        (runStoreEvents L (sqlite_mark_code_used rows0 code t L).2 evs) code t2 L).1 =
      .conflict
    ∧ (∀ (rows : SqlRows) (τ : ℚ), (code, ⌈t + (L : ℚ)⌉) ∈ rows →
        (code, ⌈t + (L : ℚ)⌉) ∉ sqlite_cleanup rows τ → t + (L : ℚ) < τ) := by
  constructor
  · have hnot : ¬ rows0.any (fun r => r.1 = code) := by
      intro hc
      rw [sqlite_mark_code_used, if_pos hc] at hok
      exact absurd hok (by simp)
    have hsnd : (sqlite_mark_code_used rows0 code t L).2 =
        rows0 ++ [(code, ⌈t + (L : ℚ)⌉)] := by
      rw [sqlite_mark_code_used, if_neg hnot]
    have hmem0 : (code, ⌈t + (L : ℚ)⌉) ∈ (sqlite_mark_code_used rows0 code t L).2 := by
      rw [hsnd]
      simp
    have hbound : ∀ ev ∈ evs, storeEventTime ev ≤ ((⌈t + (L : ℚ)⌉ : Int) : ℚ) :=
      fun ev hev => le_trans (hevs ev hev) (Int.le_ceil _)
    have hmem := sqlite_presence_preserved L code ⌈t + (L : ℚ)⌉ evs
      (sqlite_mark_code_used rows0 code t L).2 hmem0 hbound
    have hany : (runStoreEvents L (sqlite_mark_code_used rows0 code t L).2 evs).any
        (fun r => r.1 = code) := by
      rw [List.any_eq_true]
      exact ⟨(code, ⌈t + (L : ℚ)⌉), hmem, by simp⟩
    rw [sqlite_mark_code_used, if_pos hany]
  · intro rows τ hmem hnotin
    have hdrop : ¬ ((⌊τ⌋ : Int) ≤ ⌈t + (L : ℚ)⌉) := by
      intro hle
      exact hnotin (List.mem_filter.mpr ⟨hmem, by simpa using hle⟩)
    have hlt : (⌈t + (L : ℚ)⌉ : Int) < ⌊τ⌋ := by omega
    calc t + (L : ℚ) ≤ ((⌈t + (L : ℚ)⌉ : Int) : ℚ) := Int.le_ceil _
      _ < ((⌊τ⌋ : Int) : ℚ) := by exact_mod_cast hlt
      _ ≤ τ := Int.floor_le τ


/-- Witness for C5: a fresh store, a 64-byte code inserted at time 0 with a
180-second lifetime, an interleaved cleanup at time 100 and an unrelated mark at
time 150, then a conflicting re-mark at time 180; and a cleanup that removes the
record runs only after more than 180 seconds. -/
theorem claim_C5_sqlite_replay_invariants_witness :
    (sqlite_mark_code_used
        (runStoreEvents 180 (sqlite_mark_code_used [] (List.replicate 64 0) 0 180).2
          [.cleanup 100, .mark [1, 2] 150]) (List.replicate 64 0) 180 180).1 = .conflict
    ∧ (0 : ℚ) + ((180 : Int) : ℚ) < 191 := by
  have h := claim_C5_sqlite_replay_invariants [] (List.replicate 64 0) 0 180 180
    [.cleanup 100, .mark [1, 2] 150] (by decide)
    (by intro ev hev; simp at hev; rcases hev with h | h <;> simp [h, storeEventTime] <;> norm_num)
    (by norm_num)
  refine ⟨h.1, ?_⟩
  exact h.2 [(List.replicate 64 0, ⌈(0 : ℚ) + ((180 : Int) : ℚ)⌉)] 191 (by norm_num)
    (by norm_num [sqlite_cleanup])

end Lonelypsp
